import Mathlib

/-!
# fcgirt: the FastCGI record codec and request session

A shallow embedding of `fastcgi.go`.

* A byte is a natural number; the conversion `byte(x)` of an `int` is `x % 256`.
* `net.Conn` is a record with the bytes the peer still delivers before it closes its
  side (`input`), the bytes put on the connection so far (`output`) and a fault budget
  for the write side (`wfault`): `none` means every writer operation succeeds,
  `some k` means the next `k` operations succeed and every later one fails.
* `bufio.Writer` is the list of bytes buffered and not yet flushed. The early flushes
  that the library performs when its buffer is full are left out: they change when a
  byte reaches the connection, never which bytes arrive or their order.
* A Go `error` is `Option Err`, `none` being `nil`. A panic is one of the `panic...`
  constructors of `Err`.
* An `io.Reader` handed to `WriteStream` is a script of the results of its successive
  `Read` calls; once the script is used up every further `Read` reports `io.EOF`.
-/

namespace Fcgirt

/-- A byte; values written through `byte(x)` are reduced modulo 256. -/
abbrev Byte := Nat

/-- The conversion `byte(x)` of a non-negative `int`. -/
def byte (x : Nat) : Byte := x % 256

/-- Errors and panics the code can produce. -/
inductive Err where
  /-- The error `io.EOF`. -/
  | EOF
  /-- The error `io.ErrUnexpectedEOF`. -/
  | ErrUnexpectedEOF
  /-- The error "unexpected header version %d" of `ReadRecord`. -/
  | headerVersion (v : Byte)
  /-- The error "unexpected record type %d" of `Do`. -/
  | recordType (t : Byte)
  /-- An error reported by the buffered writer. -/
  | writeFault
  /-- An error other than `io.EOF` reported by a `Read` of a source. -/
  | sourceFault (code : Nat)
  /-- The panic "unexpected negative value" or "unexpected negative length". -/
  | panicNegative (n : Int)
  /-- The panic "unexpectedly large value" of `WriteUint16`. -/
  | panicLarge (n : Int)
  /-- The run-time panic of the slice expression `buf[:n]` with `n` beyond the buffer. -/
  | panicSlice (n : Nat)
  deriving DecidableEq, Repr

/-- The constant `FcgiRoleResponder`. -/
def FcgiRoleResponder : Byte := 1

/-- The constant `FcgiFlagKeepConn`. -/
def FcgiFlagKeepConn : Byte := 1

/-- The type `FastCGIRecordType`, a byte. -/
abbrev FastCGIRecordType := Byte

/-- The constant `RecBeginRequest`. -/
def RecBeginRequest : FastCGIRecordType := 1
/-- The constant `RecAbortRequest`. -/
def RecAbortRequest : FastCGIRecordType := 2
/-- The constant `RecEndRequest`. -/
def RecEndRequest : FastCGIRecordType := 3
/-- The constant `RecParams`. -/
def RecParams : FastCGIRecordType := 4
/-- The constant `RecStdin`. -/
def RecStdin : FastCGIRecordType := 5
/-- The constant `RecStdout`. -/
def RecStdout : FastCGIRecordType := 6
/-- The constant `RecStderr`. -/
def RecStderr : FastCGIRecordType := 7

/-- The struct `FastCGIParam`; a Go string is its sequence of bytes. -/
structure FastCGIParam where
  Name : List Byte
  Value : List Byte
  deriving DecidableEq, Repr

/-- The connection `net.Conn` as the code sees it. -/
structure NetConn where
  /-- Bytes the peer delivers before its side of the stream closes. -/
  input : List Byte
  /-- Bytes put on the connection so far, oldest first. -/
  output : List Byte
  /-- Number of writer operations that still succeed; `none` when all do. -/
  wfault : Option Nat
  deriving DecidableEq, Repr

/-- The struct `FastCGIConn`: the connection and the bytes held by its `bufio.Writer`. -/
structure FastCGIConn where
  c : NetConn
  wr : List Byte
  deriving DecidableEq, Repr

/-- The struct `FastCGIResponse`; each buffer is the list of bytes it yields. -/
structure FastCGIResponse where
  Stdout : List Byte
  Stderr : List Byte
  deriving DecidableEq, Repr

/-- The struct `FastCGIRecord`; its field `Type` is `Typ` here, `Type` being reserved. -/
structure FastCGIRecord where
  Typ : FastCGIRecordType
  Payload : List Byte
  deriving DecidableEq, Repr

/-- One writer operation against the fault budget: the connection afterwards, or `none`
when the operation fails. -/
def NetConn.tick (nc : NetConn) : Option NetConn :=
  match nc.wfault with
  | none => some nc
  | some 0 => none
  | some (k + 1) => some { nc with wfault := some k }

/-- The function `NewFastCGIConn`. -/
def NewFastCGIConn (nc : NetConn) : FastCGIConn :=
  { c := nc, wr := [] }

namespace FastCGIConn

/-- The method `WriteByte`: `c.wr.WriteByte(b)`. -/
def WriteByte (c : FastCGIConn) (b : Byte) : Option Err × FastCGIConn :=
  match c.c.tick with
  | none => (some Err.writeFault, c)
  | some nc => (none, { c := nc, wr := c.wr ++ [b] })

/-- The method `Write`: `c.wr.Write(p)`. -/
def Write (c : FastCGIConn) (p : List Byte) : Option Err × FastCGIConn :=
  match c.c.tick with
  | none => (some Err.writeFault, c)
  | some nc => (none, { c := nc, wr := c.wr ++ p })

/-- The method `Flush`: `c.wr.Flush()`, which hands the buffered bytes to the connection. -/
def Flush (c : FastCGIConn) : Option Err × FastCGIConn :=
  match c.c.tick with
  | none => (some Err.writeFault, c)
  | some nc => (none, { c := { nc with output := nc.output ++ c.wr }, wr := [] })

/-- The method `WriteUint16`. -/
def WriteUint16 (c : FastCGIConn) (n : Int) : Option Err × FastCGIConn :=
  if n < 0 then (some (Err.panicNegative n), c)
  else if n > 0xFFFF then (some (Err.panicLarge n), c)
  else
    match c.WriteByte (byte ((n.toNat &&& 0xFF00) >>> 8)) with
    | (some err, c1) => (some err, c1)
    | (none, c1) => c1.WriteByte (byte (n.toNat &&& 0xFF))

/-- The function `io.ReadFull(c.c, buf)` for a buffer of `n` bytes: the bytes read, the
error, and the connection afterwards. -/
def ReadFull (c : FastCGIConn) (n : Nat) : List Byte × Option Err × FastCGIConn :=
  if n = 0 then ([], none, c)
  else if n ≤ c.c.input.length then
    (c.c.input.take n, none, { c with c := { c.c with input := c.c.input.drop n } })
  else if c.c.input = [] then ([], some Err.EOF, c)
  else (c.c.input, some Err.ErrUnexpectedEOF, { c with c := { c.c with input := [] } })

/-- The method `Discard`. -/
def Discard (c : FastCGIConn) (n : Nat) : Option Err × FastCGIConn :=
  let (_, err, c1) := c.ReadFull n
  (err, c1)

/-- The method `ReadRecord`. -/
def ReadRecord (c : FastCGIConn) : Except Err FastCGIRecord × FastCGIConn :=
  match c.ReadFull 8 with
  | (_, some err, c1) => (Except.error err, c1)
  | (header, none, c1) =>
    if header.getD 0 0 ≠ 1 then (Except.error (Err.headerVersion (header.getD 0 0)), c1)
    else
      let contentLength := (header.getD 4 0 <<< 8) + header.getD 5 0
      match c1.ReadFull contentLength with
      | (_, some err, c2) => (Except.error err, c2)
      | (payload, none, c2) =>
        let paddingLength := header.getD 6 0
        match c2.Discard paddingLength with
        | (some err, c3) => (Except.error err, c3)
        | (none, c3) => (Except.ok { Typ := header.getD 1 0, Payload := payload }, c3)

/-- The method `WriteRecord`; a `nil` slice is `none`. -/
def WriteRecord (c : FastCGIConn) (typ : FastCGIRecordType) (data : Option (List Byte)) :
    Option Err × FastCGIConn :=
  match c.WriteByte 1 with
  | (some err, c1) => (some err, c1)
  | (none, c1) =>
  match c1.WriteByte typ with
  | (some err, c2) => (some err, c2)
  | (none, c2) =>
  match c2.WriteUint16 1 with
  | (some err, c3) => (some err, c3)
  | (none, c3) =>
  match c3.WriteUint16 ((data.getD []).length : Nat) with
  | (some err, c4) => (some err, c4)
  | (none, c4) =>
  match c4.WriteUint16 0 with
  | (some err, c5) => (some err, c5)
  | (none, c5) =>
  match data with
  | none => c5.Flush
  | some p =>
    match c5.Write p with
    | (some err, c6) => (some err, c6)
    | (none, c6) => c6.Flush

end FastCGIConn

/-- The method `WriteByte` of `*bytes.Buffer`, which appends and never fails. -/
def BufferWriteByte (buf : List Byte) (b : Byte) : Option Err × List Byte :=
  (none, buf ++ [b])

/-- The function `Write14Len`; the interface `byteWriter` is a writer state `W` with its
`WriteByte` operation. -/
def Write14Len {W : Type} (WriteByte : W → Byte → Option Err × W) (wr : W) (length : Int) :
    Option Err × W :=
  if length < 0 then (some (Err.panicNegative length), wr)
  else if length > 0x7F then
    match WriteByte wr (byte ((length.toNat &&& 0xFF000000) >>> 24) ||| 0x80) with
    | (some err, w1) => (some err, w1)
    | (none, w1) =>
    match WriteByte w1 (byte ((length.toNat &&& 0x00FF0000) >>> 16)) with
    | (some err, w2) => (some err, w2)
    | (none, w2) =>
    match WriteByte w2 (byte ((length.toNat &&& 0x0000FF00) >>> 8)) with
    | (some err, w3) => (some err, w3)
    | (none, w3) => WriteByte w3 (byte (length.toNat &&& 0x000000FF))
  else WriteByte wr (byte length.toNat)

/-- The method `Write14Len` of `FastCGIConn`. -/
def FastCGIConn.Write14Len (c : FastCGIConn) (length : Int) : Option Err × FastCGIConn :=
  Fcgirt.Write14Len FastCGIConn.WriteByte c length

/-- The function `NewParamStream`: the content of the buffer it returns, which is what
reading the returned reader yields. The results of `Write14Len` are dropped as in the
source. -/
def NewParamStream (params : List FastCGIParam) : List Byte :=
  params.foldl
    (fun buf p =>
      let buf1 := (Write14Len BufferWriteByte buf (p.Name.length : Nat)).2
      let buf2 := (Write14Len BufferWriteByte buf1 (p.Value.length : Nat)).2
      buf2 ++ p.Name ++ p.Value)
    []

/-- The result `(n, err)` of one `Read(buf)` of a source: `data` are the `n` bytes placed
in `buf`. -/
structure ReadResult where
  data : List Byte
  err : Option Err
  deriving DecidableEq, Repr

/-- An `io.Reader` as the script of the results of its successive `Read` calls; when the
script is used up, `Read` returns `(0, io.EOF)`. -/
abbrev Source := List ReadResult

/-- The loop of `WriteStream` together with its `closeStream` exit: the error returned,
the connection and the part of the source not yet read. -/
def WriteStreamLoop (typ : FastCGIRecordType) (bufsize : Nat) :
    FastCGIConn → Source → Option Err × FastCGIConn × Source
  | c, [] =>
    let (err, c1) := c.WriteRecord typ none
    (err, c1, [])
  | c, r :: rest =>
    let n := r.data.length
    if n > 0 then
      if bufsize < n then (some (Err.panicSlice n), c, rest)
      else
        match c.WriteRecord typ (some r.data) with
        | (some err, c1) => (some err, c1, rest)
        | (none, c1) => WriteStreamLoop typ bufsize c1 rest
    else if r.err = some Err.EOF then
      let (err, c1) := c.WriteRecord typ none
      (err, c1, rest)
    else if r.err ≠ none then (r.err, c, rest)
    else WriteStreamLoop typ bufsize c rest

/-- The method `WriteStream`; a `nil` reader is `none`. -/
def FastCGIConn.WriteStream (c : FastCGIConn) (typ : FastCGIRecordType) (r : Option Source)
    (bufsize : Nat) : Option Err × FastCGIConn × Option Source :=
  match r with
  | none =>
    let (err, c1) := c.WriteRecord typ none
    (err, c1, none)
  | some src =>
    let (err, c1, rest) := WriteStreamLoop typ bufsize c src
    (err, c1, some rest)

/-- Whether an error value stands for a panic. -/
def Err.isPanic : Err → Bool
  | Err.panicNegative _ => true
  | Err.panicLarge _ => true
  | Err.panicSlice _ => true
  | _ => false

/-- What `Do` hands back, with the state it leaves behind. -/
structure DoResult where
  /-- The first result of `Do`: `nil` or the response. -/
  response : Option FastCGIResponse
  /-- The second result of `Do`. -/
  err : Option Err
  /-- The connection once the body writer, if started, has run to its end. -/
  conn : FastCGIConn
  /-- The value the body writer sends on the channel `sinwerr`, if it was started. -/
  sinwerr : Option (Option Err)
  /-- Whether `Do` received from `sinwerr` before it returned. -/
  received : Bool
  deriving DecidableEq, Repr

/-- The read loop of `Do`. The first argument bounds the number of iterations; `Do`
passes more than the loop can use (see `DoLoop_fuel`), so the first case is never
reached from `Do`. -/
def DoLoop (sinwerr : Option Err) :
    Nat → FastCGIConn → List Byte → List Byte → DoResult
  | 0, c, _, _ =>
    { response := none, err := none, conn := c, sinwerr := some sinwerr, received := false }
  | fuel + 1, c, stdout, stderr =>
    match c.ReadRecord with
    | (Except.error err, c1) =>
      { response := some { Stdout := stdout, Stderr := stderr }, err := some err, conn := c1,
        sinwerr := some sinwerr, received := false }
    | (Except.ok rec, c1) =>
      if rec.Typ = RecStdout then DoLoop sinwerr fuel c1 (stdout ++ rec.Payload) stderr
      else if rec.Typ = RecStderr then DoLoop sinwerr fuel c1 stdout (stderr ++ rec.Payload)
      else if rec.Typ = RecEndRequest then
        { response := some { Stdout := stdout, Stderr := stderr }, err := sinwerr, conn := c1,
          sinwerr := some sinwerr, received := true }
      else
        { response := some { Stdout := stdout, Stderr := stderr },
          err := some (Err.recordType rec.Typ), conn := c1,
          sinwerr := some sinwerr, received := false }

/-- The method `Do`. The body writer and the read loop work on disjoint parts of the
state (the writer and the source on one side, the incoming bytes on the other), so the
order in which their steps interleave does not change any value computed here; the body
writer is run first. A panic of the body writer ends the program, which is rendered as a
result without response that carries the panic. -/
def FastCGIConn.Do (c : FastCGIConn) (stdin : Option Source) (params : Option Source) :
    DoResult :=
  match c.WriteRecord RecBeginRequest
      (some [0, FcgiRoleResponder, FcgiFlagKeepConn, 0, 0, 0, 0, 0]) with
  | (some err, c1) =>
    { response := none, err := some err, conn := c1, sinwerr := none, received := false }
  | (none, c1) =>
  match c1.WriteStream RecParams params 2048 with
  | (some err, c2, _) =>
    { response := none, err := some err, conn := c2, sinwerr := none, received := false }
  | (none, c2, _) =>
  match c2.WriteStream RecStdin stdin 2048 with
  | (sinwerr, c3, _) =>
    if (sinwerr.map Err.isPanic).getD false then
      { response := none, err := sinwerr, conn := c3, sinwerr := none, received := false }
    else DoLoop sinwerr (c3.c.input.length + 1) c3 [] []

/-! ## Definitions used to state the properties -/

/-- The connection `d` with `inp` as the bytes still to come from the peer. -/
def FastCGIConn.withInput (d : FastCGIConn) (inp : List Byte) : FastCGIConn :=
  { d with c := { d.c with input := inp } }

/-- The connection `c` after the buffered bytes and then the bytes `w` have been put on
the connection. -/
def FastCGIConn.sent (c : FastCGIConn) (w : List Byte) : FastCGIConn :=
  { c := { c.c with output := c.c.output ++ (c.wr ++ w) }, wr := [] }

/-- A connection that has carried nothing, on which every write succeeds. -/
def idleConn : FastCGIConn :=
  NewFastCGIConn { input := [], output := [], wfault := none }

/-- The bytes `WriteRecord(t, p)` puts on an idle connection. -/
def recordBytes (t : FastCGIRecordType) (p : List Byte) : List Byte :=
  (idleConn.WriteRecord t (some p)).2.c.output

/-- The bytes of all the records of a list, in order. -/
def recordsBytes (recs : List FastCGIRecord) : List Byte :=
  (recs.map (fun r => recordBytes r.Typ r.Payload)).flatten

/-- The bytes `Write14Len` hands to a writer for the length `n`. -/
def lenBytes (n : Nat) : List Byte :=
  (Write14Len BufferWriteByte [] (n : Int)).2

/-- The FastCGI length decoding in the words of the specification; the source has no
decoder of its own. A first byte below 128 is the length; otherwise four bytes give
`((b0 and 0x7F) << 24) + (b1 << 16) + (b2 << 8) + b3`. The result is the length and the
bytes left over. -/
def specDecode14Len : List Byte → Option (Nat × List Byte)
  | [] => none
  | b0 :: rest =>
    if b0 < 128 then some (b0, rest)
    else
      match rest with
      | b1 :: b2 :: b3 :: rest1 =>
        some (((b0 &&& 0x7F) <<< 24) + (b1 <<< 16) + (b2 <<< 8) + b3, rest1)
      | _ => none

/-- The big-endian 32-bit representation of `m`. -/
def bigEndian32 (m : Nat) : List Byte :=
  [m / 2 ^ 24 % 256, m / 2 ^ 16 % 256, m / 2 ^ 8 % 256, m % 256]

/-- The non-empty pieces of data that the reads of a source return, in order, up to the
first read that reports an error or end-of-stream without data. -/
def Source.chunks : Source → List (List Byte)
  | [] => []
  | r :: rest =>
    if r.data = [] then (if r.err = none then Source.chunks rest else [])
    else r.data :: Source.chunks rest

/-- The byte sequence a source delivers: the data of its reads up to and including the
first read that reports end-of-stream or an error. -/
def Source.bytes : Source → List Byte
  | [] => []
  | r :: rest => r.data ++ (if r.err = none then Source.bytes rest else [])

/-- A source that delivers a finite byte sequence through reads of at most `b` bytes each
and then reports end-of-stream: no read reports an error other than `io.EOF`, and once a
read has reported `io.EOF` the later reads return no data. -/
def Source.wellBehaved (b : Nat) : Source → Prop
  | [] => True
  | r :: rest =>
    r.data.length ≤ b ∧
      ((r.err = none ∧ Source.wellBehaved b rest) ∨
        (r.err = some Err.EOF ∧
          (r.data = [] ∨ ∀ s ∈ rest, s.data = [] ∧ (s.err = none ∨ s.err = some Err.EOF))))

/-- The chunks of a reader handed to `WriteStream`; a `nil` reader has none. -/
def readerChunks : Option Source → List (List Byte)
  | none => []
  | some src => Source.chunks src

/-- The byte sequence of a reader handed to `WriteStream`; a `nil` reader has none. -/
def readerBytes : Option Source → List Byte
  | none => []
  | some src => Source.bytes src

/-- A reader handed to `WriteStream` is `nil` or a well-behaved source. -/
def readerOK (b : Nat) : Option Source → Prop
  | none => True
  | some src => Source.wellBehaved b src

/-- The records read off a connection by repeated `ReadRecord` until no byte is left. The
first argument bounds the number of records; `recordsOn` passes the number of bytes. -/
def readRecords : Nat → FastCGIConn → Except Err (List FastCGIRecord)
  | 0, _ => Except.ok []
  | fuel + 1, c =>
    if c.c.input = [] then Except.ok []
    else
      match c.ReadRecord with
      | (Except.error err, _) => Except.error err
      | (Except.ok rec, c1) =>
        match readRecords fuel c1 with
        | Except.error err => Except.error err
        | Except.ok recs => Except.ok (rec :: recs)

/-- The records a byte sequence consists of, as `ReadRecord` decodes them. -/
def recordsOn (bytes : List Byte) : Except Err (List FastCGIRecord) :=
  readRecords bytes.length (idleConn.withInput bytes)

/-- A record as a peer puts it on the wire: version 1, any request id, reserved byte and
padding, and the content length and padding length fields that match the content and the
padding. -/
structure WireRecord where
  typ : Byte
  idHi : Byte
  idLo : Byte
  reserved : Byte
  content : List Byte
  padding : List Byte
  deriving DecidableEq, Repr

/-- The bytes of a record on the wire. -/
def WireRecord.bytes (r : WireRecord) : List Byte :=
  [1, r.typ, r.idHi, r.idLo, r.content.length / 256, r.content.length % 256,
    r.padding.length, r.reserved] ++ r.content ++ r.padding

/-- The bytes of a sequence of records on the wire. -/
def wireBytes (recs : List WireRecord) : List Byte :=
  (recs.map WireRecord.bytes).flatten

/-- The content of the records of type `t` among `recs`, in order. -/
def contentOf (t : Byte) (recs : List WireRecord) : List Byte :=
  ((recs.filter (fun r => r.typ = t)).map WireRecord.content).flatten

/-- The records of a successful request: `BeginRequest`, the chunks of the parameter
reader as `Params` records and an empty `Params` record, then the chunks of the body
reader as `Stdin` records and an empty `Stdin` record. -/
def requestRecords (stdin params : Option Source) : List FastCGIRecord :=
  [{ Typ := RecBeginRequest,
     Payload := [0, FcgiRoleResponder, FcgiFlagKeepConn, 0, 0, 0, 0, 0] }]
    ++ (readerChunks params).map (fun p => { Typ := RecParams, Payload := p })
    ++ [{ Typ := RecParams, Payload := [] }]
    ++ (readerChunks stdin).map (fun p => { Typ := RecStdin, Payload := p })
    ++ [{ Typ := RecStdin, Payload := [] }]

/-- The parameter `REQUEST_METHOD` with value `GET`. -/
def requestMethodGet : FastCGIParam :=
  { Name := [82, 69, 81, 85, 69, 83, 84, 95, 77, 69, 84, 72, 79, 68], Value := [71, 69, 84] }

/-- A Stdout record carrying the line `Status: 200 OK`, an empty line and `hi`. -/
def statusOkRecord : WireRecord :=
  { typ := 6, idHi := 0, idLo := 1, reserved := 0,
    content := [83, 116, 97, 116, 117, 115, 58, 32, 50, 48, 48, 32, 79, 75, 13, 10, 13, 10,
      104, 105],
    padding := [] }

/-- An EndRequest record with its eight-byte body. -/
def endRequestRecord : WireRecord :=
  { typ := 3, idHi := 0, idLo := 1, reserved := 0, content := [0, 0, 0, 0, 0, 0, 0, 0],
    padding := [] }

/-- The writes `Do` performs before it starts the body writer, the BeginRequest record
and the parameter stream: the error of the first one that fails, if any, and the
connection afterwards. -/
def DoPrologue (c : FastCGIConn) (params : Option Source) : Option Err × FastCGIConn :=
  match c.WriteRecord RecBeginRequest
      (some [0, FcgiRoleResponder, FcgiFlagKeepConn, 0, 0, 0, 0, 0]) with
  | (some err, c1) => (some err, c1)
  | (none, c1) =>
    match c1.WriteStream RecParams params 2048 with
    | (err, c2, _) => (err, c2)

/-- The call `WriteStream(RecStdin, stdin, 2048)` of the body writer, made on the
connection the prologue leaves: its outcome and the connection afterwards. -/
def DoBodyWriter (c : FastCGIConn) (stdin params : Option Source) : Option Err × FastCGIConn :=
  match (DoPrologue c params).2.WriteStream RecStdin stdin 2048 with
  | (err, c3, _) => (err, c3)

/-- Every read of the reader keeps to the contract of `io.Reader` for a buffer of `b`
bytes: it returns at most `b` bytes. A `nil` reader is never read. -/
def readerContract (b : Nat) : Option Source → Prop
  | none => True
  | some src => ∀ r ∈ src, r.data.length ≤ b

/-- The errors the reader reports are errors of a reader: `io.EOF` or a failure of the
source, never a value that stands for a panic or a failure of this code. -/
def readerErrors : Option Source → Prop
  | none => True
  | some src =>
    ∀ r ∈ src, r.err = none ∨ r.err = some Err.EOF ∨ ∃ k, r.err = some (Err.sourceFault k)

/-- An AbortRequest record, a type `Do` does not expect from the peer. -/
def abortRecord : WireRecord :=
  { typ := 2, idHi := 0, idLo := 1, reserved := 0, content := [], padding := [] }

/-- Whether an error value stands for one of the two panics of `WriteUint16`. -/
def Err.isRangePanic : Err → Bool
  | Err.panicNegative _ => true
  | Err.panicLarge _ => true
  | _ => false

/-- The method `WriteRecord` behind a guard on the payload length: a payload longer than
`bound` is not written, and the call reports the too-large panic at once. It serves to
say that a caller never passes a longer payload. -/
def WriteRecordWithin (bound : Nat) (c : FastCGIConn) (typ : FastCGIRecordType)
    (data : Option (List Byte)) : Option Err × FastCGIConn :=
  if (data.getD []).length ≤ bound then c.WriteRecord typ data
  else (some (Err.panicLarge ((data.getD []).length : Nat)), c)

/-- The loop of `WriteStream` with its calls of `WriteRecord` replaced by `wrec`. -/
def WriteStreamLoopWith
    (wrec : FastCGIConn → FastCGIRecordType → Option (List Byte) → Option Err × FastCGIConn)
    (typ : FastCGIRecordType) (bufsize : Nat) :
    FastCGIConn → Source → Option Err × FastCGIConn × Source
  | c, [] =>
    let (err, c1) := wrec c typ none
    (err, c1, [])
  | c, r :: rest =>
    let n := r.data.length
    if n > 0 then
      if bufsize < n then (some (Err.panicSlice n), c, rest)
      else
        match wrec c typ (some r.data) with
        | (some err, c1) => (some err, c1, rest)
        | (none, c1) => WriteStreamLoopWith wrec typ bufsize c1 rest
    else if r.err = some Err.EOF then
      let (err, c1) := wrec c typ none
      (err, c1, rest)
    else if r.err ≠ none then (r.err, c, rest)
    else WriteStreamLoopWith wrec typ bufsize c rest

/-- The method `WriteStream` with its calls of `WriteRecord` replaced by `wrec`. -/
def WriteStreamWith
    (wrec : FastCGIConn → FastCGIRecordType → Option (List Byte) → Option Err × FastCGIConn)
    (c : FastCGIConn) (typ : FastCGIRecordType) (r : Option Source) (bufsize : Nat) :
    Option Err × FastCGIConn × Option Source :=
  match r with
  | none =>
    let (err, c1) := wrec c typ none
    (err, c1, none)
  | some src =>
    let (err, c1, rest) := WriteStreamLoopWith wrec typ bufsize c src
    (err, c1, some rest)

/-- The method `Do` with every call of `WriteRecord`, its own and those of `WriteStream`,
replaced by `wrec`. -/
def DoWith
    (wrec : FastCGIConn → FastCGIRecordType → Option (List Byte) → Option Err × FastCGIConn)
    (c : FastCGIConn) (stdin : Option Source) (params : Option Source) : DoResult :=
  match wrec c RecBeginRequest
      (some [0, FcgiRoleResponder, FcgiFlagKeepConn, 0, 0, 0, 0, 0]) with
  | (some err, c1) =>
    { response := none, err := some err, conn := c1, sinwerr := none, received := false }
  | (none, c1) =>
  match WriteStreamWith wrec c1 RecParams params 2048 with
  | (some err, c2, _) =>
    { response := none, err := some err, conn := c2, sinwerr := none, received := false }
  | (none, c2, _) =>
  match WriteStreamWith wrec c2 RecStdin stdin 2048 with
  | (sinwerr, c3, _) =>
    if (sinwerr.map Err.isPanic).getD false then
      { response := none, err := sinwerr, conn := c3, sinwerr := none, received := false }
    else DoLoop sinwerr (c3.c.input.length + 1) c3 [] []

/-! ## Bit arithmetic -/

theorem mask_shift (n k : Nat) : (n &&& (255 <<< k)) >>> k = (n >>> k) % 256 := by
  apply Nat.eq_of_testBit_eq
  intro j
  have h255 : (255 : Nat) = 2 ^ 8 - 1 := by norm_num
  have h256 : (256 : Nat) = 2 ^ 8 := by norm_num
  rw [h256, Nat.testBit_mod_two_pow, Nat.testBit_shiftRight, Nat.testBit_shiftRight,
    Nat.testBit_and, Nat.testBit_shiftLeft, h255, Nat.testBit_two_pow_sub_one]
  by_cases hj : j < 8 <;> simp [hj, Bool.and_comm]

theorem byte_hi (n : Nat) : byte ((n &&& 0xFF00) >>> 8) = n / 256 % 256 := by
  have h : (0xFF00 : Nat) = 255 <<< 8 := by decide
  rw [h, mask_shift, Nat.shiftRight_eq_div_pow]
  simp [byte]

theorem byte_lo (n : Nat) : byte (n &&& 0xFF) = n % 256 := by
  have h : (0xFF : Nat) = 2 ^ 8 - 1 := by norm_num
  rw [h, Nat.and_pow_two_sub_one_eq_mod]
  simp [byte]

theorem byte_b3 (n : Nat) : byte ((n &&& 0xFF000000) >>> 24) = n / 2 ^ 24 % 256 := by
  have h : (0xFF000000 : Nat) = 255 <<< 24 := by decide
  rw [h, mask_shift, Nat.shiftRight_eq_div_pow]
  simp [byte]

theorem byte_b2 (n : Nat) : byte ((n &&& 0x00FF0000) >>> 16) = n / 2 ^ 16 % 256 := by
  have h : (0x00FF0000 : Nat) = 255 <<< 16 := by decide
  rw [h, mask_shift, Nat.shiftRight_eq_div_pow]
  simp [byte]

theorem or_0x80 (x : Nat) (hx : x < 128) : x ||| 0x80 = x + 128 := by
  have h := Nat.mul_add_lt_is_or (i := 7) (b := x) (by norm_num; exact hx) 1
  rw [Nat.or_comm]
  norm_num at h
  omega


/-! ## The write path when no write fails -/

theorem tick_of_none (nc : NetConn) (h : nc.wfault = none) : nc.tick = some nc := by
  simp [NetConn.tick, h]

theorem WriteByte_ok (c : FastCGIConn) (b : Byte) (h : c.c.wfault = none) :
    c.WriteByte b = (none, { c with wr := c.wr ++ [b] }) := by
  simp [FastCGIConn.WriteByte, tick_of_none _ h]

theorem Write_ok (c : FastCGIConn) (p : List Byte) (h : c.c.wfault = none) :
    c.Write p = (none, { c with wr := c.wr ++ p }) := by
  simp [FastCGIConn.Write, tick_of_none _ h]

theorem Flush_ok (c : FastCGIConn) (h : c.c.wfault = none) :
    c.Flush = (none, c.sent []) := by
  simp [FastCGIConn.Flush, tick_of_none _ h, FastCGIConn.sent]

theorem WriteUint16_ok (c : FastCGIConn) (n : Nat) (h : c.c.wfault = none) (hn : n ≤ 65535) :
    c.WriteUint16 (n : Int) = (none, { c with wr := c.wr ++ [n / 256, n % 256] }) := by
  have h1 : ¬ ((n : Int) < 0) := by omega
  have h2 : ¬ ((n : Int) > 0xFFFF) := by omega
  have h3 : n / 256 % 256 = n / 256 := by omega
  simp [FastCGIConn.WriteUint16, h1, h2, byte_hi, byte_lo, WriteByte_ok, h, h3]

theorem WriteRecord_ok (c : FastCGIConn) (t : FastCGIRecordType) (data : Option (List Byte))
    (h : c.c.wfault = none) (hn : (data.getD []).length ≤ 65535) :
    c.WriteRecord t data
      = (none, c.sent ([1, t, 0, 1, (data.getD []).length / 256, (data.getD []).length % 256,
          0, 0] ++ data.getD [])) := by
  have e0 : ∀ c : FastCGIConn, c.c.wfault = none →
      c.WriteUint16 0 = (none, { c with wr := c.wr ++ [0, 0] }) := by
    intro c hc
    simpa using WriteUint16_ok c 0 hc (by omega)
  have e1 : ∀ c : FastCGIConn, c.c.wfault = none →
      c.WriteUint16 1 = (none, { c with wr := c.wr ++ [0, 1] }) := by
    intro c hc
    simpa using WriteUint16_ok c 1 hc (by omega)
  cases data with
  | none =>
    simp [FastCGIConn.WriteRecord, WriteByte_ok, h, e0, e1, Flush_ok, FastCGIConn.sent]
  | some p =>
    simp only [Option.getD_some] at hn
    simp [FastCGIConn.WriteRecord, WriteByte_ok, h, e0, e1, WriteUint16_ok, hn, Flush_ok,
      Write_ok, FastCGIConn.sent]

theorem recordBytes_eq (t : FastCGIRecordType) (p : List Byte) (hn : p.length ≤ 65535) :
    recordBytes t p = [1, t, 0, 1, p.length / 256, p.length % 256, 0, 0] ++ p := by
  have h := WriteRecord_ok idleConn t (some p) rfl hn
  rw [recordBytes, h]
  simp [FastCGIConn.sent, idleConn, NewFastCGIConn]

theorem WriteRecord_sent (c : FastCGIConn) (t : FastCGIRecordType) (data : Option (List Byte))
    (h : c.c.wfault = none) (hn : (data.getD []).length ≤ 65535) :
    c.WriteRecord t data = (none, c.sent (recordBytes t (data.getD []))) := by
  rw [WriteRecord_ok c t data h hn, recordBytes_eq t _ hn]

theorem sent_input (c : FastCGIConn) (w : List Byte) : (c.sent w).c.input = c.c.input := rfl

theorem sent_sent (c : FastCGIConn) (w v : List Byte) : (c.sent w).sent v = c.sent (w ++ v) := by
  simp [FastCGIConn.sent]

/-! ## The read path -/

theorem ReadFull_append (d : FastCGIConn) (xs rest : List Byte) :
    (d.withInput (xs ++ rest)).ReadFull xs.length = (xs, none, d.withInput rest) := by
  cases xs with
  | nil => simp [FastCGIConn.ReadFull, FastCGIConn.withInput]
  | cons x xs => simp [FastCGIConn.ReadFull, FastCGIConn.withInput]

theorem ReadRecord_wire (d : FastCGIConn) (t idHi idLo cHi cLo padLen reserved : Byte)
    (content padding rest : List Byte)
    (hc : content.length = 256 * cHi + cLo) (hp : padding.length = padLen) :
    (d.withInput ([1, t, idHi, idLo, cHi, cLo, padLen, reserved] ++ content ++ padding
      ++ rest)).ReadRecord
      = (Except.ok { Typ := t, Payload := content }, d.withInput rest) := by
  have h8 := ReadFull_append d [1, t, idHi, idLo, cHi, cLo, padLen, reserved]
    (content ++ (padding ++ rest))
  have hcl : (cHi <<< 8) + cLo = content.length := by
    have e : cHi <<< 8 = cHi * 256 := by rw [Nat.shiftLeft_eq]
    rw [e, hc]
    exact Nat.add_right_cancel_iff.mpr (Nat.mul_comm cHi 256)
  have h2 := ReadFull_append d content (padding ++ rest)
  have h3 := ReadFull_append d padding rest
  simp only [List.length_cons, List.length_nil, Nat.zero_add, Nat.reduceAdd] at h8
  subst hp
  simp only [FastCGIConn.ReadRecord, List.append_assoc, h8, List.getD_cons_zero,
    List.getD_cons_succ, hcl, h2, FastCGIConn.Discard, h3]
  simp

theorem ReadRecord_recordBytes (d : FastCGIConn) (t : FastCGIRecordType) (p rest : List Byte)
    (hn : p.length ≤ 65535) :
    (d.withInput (recordBytes t p ++ rest)).ReadRecord
      = (Except.ok { Typ := t, Payload := p }, d.withInput rest) := by
  have h := ReadRecord_wire d t 0 1 (p.length / 256) (p.length % 256) 0 0 p [] rest
    (Nat.div_add_mod p.length 256).symm rfl
  rw [recordBytes_eq t p hn]
  simpa using h



/-! ## Sources and `WriteStream` -/

theorem wellBehaved_of_drained (b : Nat) (src : Source)
    (h : ∀ s ∈ src, s.data = [] ∧ (s.err = none ∨ s.err = some Err.EOF)) :
    Source.wellBehaved b src := by
  induction src with
  | nil => trivial
  | cons r rest ih =>
    have hr := h r (List.mem_cons_self _ _)
    have hrest := ih (fun s hs => h s (List.mem_cons_of_mem _ hs))
    refine ⟨by simp [hr.1], ?_⟩
    rcases hr.2 with h0 | h1
    · exact Or.inl ⟨h0, hrest⟩
    · exact Or.inr ⟨h1, Or.inl hr.1⟩

theorem chunks_of_drained (src : Source) (h : ∀ s ∈ src, s.data = []) :
    Source.chunks src = [] := by
  induction src with
  | nil => rfl
  | cons r rest ih =>
    have hr := h r (List.mem_cons_self _ _)
    have hrest := ih (fun s hs => h s (List.mem_cons_of_mem _ hs))
    simp [Source.chunks, hr, hrest]

theorem chunks_flatten (b : Nat) (src : Source) (h : Source.wellBehaved b src) :
    (Source.chunks src).flatten = Source.bytes src := by
  induction src with
  | nil => rfl
  | cons r rest ih =>
    obtain ⟨_, h2⟩ := h
    rcases h2 with ⟨h0, hr⟩ | ⟨h1, hr⟩
    · by_cases hd : r.data = []
      · simp [Source.chunks, Source.bytes, hd, h0, ih hr]
      · simp [Source.chunks, Source.bytes, hd, h0, ih hr]
    · rcases hr with hd | hr
      · simp [Source.chunks, Source.bytes, hd, h1]
      · have hc := chunks_of_drained rest (fun s hs => (hr s hs).1)
        by_cases hd : r.data = []
        · simp [Source.chunks, Source.bytes, hd, h1]
        · simp [Source.chunks, Source.bytes, hd, h1, hc]

theorem chunks_ne_nil (src : Source) : ∀ p ∈ Source.chunks src, p ≠ [] := by
  induction src with
  | nil => intro p hp; simp [Source.chunks] at hp
  | cons r rest ih =>
    intro p hp
    by_cases hd : r.data = []
    · by_cases he : r.err = none
      · simp only [Source.chunks, hd, he, if_true] at hp
        exact ih p hp
      · simp [Source.chunks, hd, he] at hp
    · simp only [Source.chunks, hd, if_false, List.mem_cons] at hp
      rcases hp with rfl | hp
      · exact hd
      · exact ih p hp

theorem chunks_length_le (b : Nat) (src : Source) (h : Source.wellBehaved b src) :
    ∀ p ∈ Source.chunks src, p.length ≤ b := by
  induction src with
  | nil => intro p hp; simp [Source.chunks] at hp
  | cons r rest ih =>
    intro p hp
    obtain ⟨hb, h2⟩ := h
    rcases h2 with ⟨h0, hr⟩ | ⟨h1, hr⟩
    · by_cases hd : r.data = []
      · simp only [Source.chunks, hd, h0, if_true] at hp
        exact ih hr p hp
      · simp only [Source.chunks, hd, if_false, List.mem_cons] at hp
        rcases hp with rfl | hp
        · exact hb
        · exact ih hr p hp
    · rcases hr with hd | hr
      · simp [Source.chunks, hd, h1] at hp
      · have hc := chunks_of_drained rest (fun s hs => (hr s hs).1)
        by_cases hd : r.data = []
        · simp [Source.chunks, hd, h1] at hp
        · simp only [Source.chunks, hd, if_false, hc, List.mem_singleton] at hp
          rw [hp]
          exact hb

theorem WriteStreamLoop_ok (t : FastCGIRecordType) (b : Nat) (hb : b ≤ 65535) (src : Source) :
    ∀ c : FastCGIConn, c.c.wfault = none → Source.wellBehaved b src →
      (WriteStreamLoop t b c src).1 = none ∧
      (WriteStreamLoop t b c src).2.1
        = c.sent (((Source.chunks src).map (recordBytes t)).flatten ++ recordBytes t []) := by
  induction src with
  | nil =>
    intro c hw _
    simp [WriteStreamLoop, Source.chunks, WriteRecord_sent c t none hw (by simp)]
  | cons r rest ih =>
    intro c hw h
    obtain ⟨hlen, h2⟩ := h
    have hrest : r.data ≠ [] → Source.wellBehaved b rest ∧
        Source.chunks (r :: rest) = r.data :: Source.chunks rest := by
      intro hd
      refine ⟨?_, by simp [Source.chunks, hd]⟩
      rcases h2 with ⟨_, hr⟩ | ⟨_, hr⟩
      · exact hr
      · rcases hr with hd1 | hr
        · exact absurd hd1 hd
        · exact wellBehaved_of_drained b rest hr
    by_cases hd : r.data = []
    · have hn : ¬ (r.data.length > 0) := by simp [hd]
      rcases h2 with ⟨h0, hr⟩ | ⟨h1, _⟩
      · have := ih c hw hr
        simpa [WriteStreamLoop, hd, h0, Source.chunks] using this
      · simp [WriteStreamLoop, hd, h1, Source.chunks,
          WriteRecord_sent c t none hw (by simp)]
    · obtain ⟨hwb, hch⟩ := hrest hd
      have hn : r.data.length > 0 := List.length_pos.mpr hd
      have hnb : ¬ (b < r.data.length) := by omega
      have hwr := WriteRecord_sent c t (some r.data) hw (by simp; omega)
      have := ih (c.sent (recordBytes t r.data)) hw hwb
      simp only [Option.getD_some] at hwr
      simp only [WriteStreamLoop, hn, if_true, hnb, if_false, hwr, hch, List.map_cons,
        List.flatten_cons, List.append_assoc]
      simpa [sent_sent] using this

theorem WriteStream_ok (t : FastCGIRecordType) (b : Nat) (hb : b ≤ 65535) (r : Option Source)
    (c : FastCGIConn) (hw : c.c.wfault = none) (h : readerOK b r) :
    (c.WriteStream t r b).1 = none ∧
    (c.WriteStream t r b).2.1
      = c.sent (((readerChunks r).map (recordBytes t)).flatten ++ recordBytes t []) := by
  cases r with
  | none =>
    simp [FastCGIConn.WriteStream, readerChunks, WriteRecord_sent c t none hw (by simp)]
  | some src =>
    have := WriteStreamLoop_ok t b hb src c hw h
    simpa [FastCGIConn.WriteStream, readerChunks] using this



/-! ## Decoding what was written -/

theorem recordBytes_length (t : FastCGIRecordType) (p : List Byte) (hn : p.length ≤ 65535) :
    (recordBytes t p).length = 8 + p.length := by
  rw [recordBytes_eq t p hn]
  simp
  omega

theorem recordBytes_ne_nil (t : FastCGIRecordType) (p : List Byte) (hn : p.length ≤ 65535) :
    recordBytes t p ≠ [] := by
  rw [recordBytes_eq t p hn]
  simp

theorem readRecords_recordsBytes (recs : List FastCGIRecord) :
    ∀ (fuel : Nat) (d : FastCGIConn), recs.length ≤ fuel →
      (∀ r ∈ recs, r.Payload.length ≤ 65535) →
      readRecords fuel (d.withInput (recordsBytes recs)) = Except.ok recs := by
  induction recs with
  | nil =>
    intro fuel d _ _
    cases fuel with
    | zero => rfl
    | succ f => simp [readRecords, recordsBytes, FastCGIConn.withInput]
  | cons r rest ih =>
    intro fuel d hf hp
    cases fuel with
    | zero => simp at hf
    | succ f =>
      have hr := hp r (List.mem_cons_self _ _)
      have hne : (d.withInput (recordsBytes (r :: rest))).c.input ≠ [] := by
        simp [recordsBytes, FastCGIConn.withInput, recordBytes_ne_nil r.Typ r.Payload hr]
      have hrd := ReadRecord_recordBytes d r.Typ r.Payload (recordsBytes rest) hr
      have hrec := ih f d (by simpa using hf) (fun s hs => hp s (List.mem_cons_of_mem _ hs))
      have e : recordsBytes (r :: rest) = recordBytes r.Typ r.Payload ++ recordsBytes rest := by
        simp [recordsBytes]
      rw [e] at hne ⊢
      simp only [readRecords, hne, if_false, hrd, hrec]

theorem recordsBytes_length (recs : List FastCGIRecord)
    (hp : ∀ r ∈ recs, r.Payload.length ≤ 65535) :
    recs.length ≤ (recordsBytes recs).length := by
  induction recs with
  | nil => simp
  | cons r rest ih =>
    have hr := recordBytes_length r.Typ r.Payload (hp r (List.mem_cons_self _ _))
    have := ih (fun s hs => hp s (List.mem_cons_of_mem _ hs))
    have e : recordsBytes (r :: rest) = recordBytes r.Typ r.Payload ++ recordsBytes rest := by
      simp [recordsBytes]
    rw [e, List.length_append, hr, List.length_cons]
    omega

theorem recordsOn_recordsBytes (recs : List FastCGIRecord)
    (hp : ∀ r ∈ recs, r.Payload.length ≤ 65535) :
    recordsOn (recordsBytes recs) = Except.ok recs :=
  readRecords_recordsBytes recs _ idleConn (recordsBytes_length recs hp) hp

/-- The records `WriteStream` emits for the chunks `ps`: one per chunk, then an empty one. -/
theorem recordsBytes_stream (t : FastCGIRecordType) (ps : List (List Byte)) :
    recordsBytes (ps.map (fun p => { Typ := t, Payload := p }) ++ [{ Typ := t, Payload := [] }])
      = (ps.map (recordBytes t)).flatten ++ recordBytes t [] := by
  simp [recordsBytes, Function.comp_def]

/-! ## The read loop of `Do` -/

theorem DoLoop_wire (sw : Option Err) (e : WireRecord) (rest : List Byte)
    (he : e.typ = RecEndRequest) (recs : List WireRecord) :
    ∀ (fuel : Nat) (d : FastCGIConn) (so se : List Byte), recs.length < fuel →
      (∀ r ∈ recs, r.typ = RecStdout ∨ r.typ = RecStderr) →
      DoLoop sw fuel (d.withInput (wireBytes recs ++ e.bytes ++ rest)) so se
        = { response := some { Stdout := so ++ contentOf RecStdout recs,
                                Stderr := se ++ contentOf RecStderr recs },
            err := sw, conn := d.withInput rest, sinwerr := some sw, received := true } := by
  induction recs with
  | nil =>
    intro fuel d so se hf _
    cases fuel with
    | zero => simp at hf
    | succ f =>
      have h := ReadRecord_wire d e.typ e.idHi e.idLo (e.content.length / 256)
        (e.content.length % 256) e.padding.length e.reserved e.content e.padding rest
        (Nat.div_add_mod _ 256).symm rfl
      simp only [wireBytes, List.map_nil, List.flatten_nil, List.nil_append, WireRecord.bytes]
      rw [DoLoop, h]
      simp [he, RecEndRequest, RecStdout, RecStderr, contentOf]
  | cons r rs ih =>
    intro fuel d so se hf hty
    cases fuel with
    | zero => simp at hf
    | succ f =>
      have h := ReadRecord_wire d r.typ r.idHi r.idLo (r.content.length / 256)
        (r.content.length % 256) r.padding.length r.reserved r.content r.padding
        (wireBytes rs ++ e.bytes ++ rest) (Nat.div_add_mod _ 256).symm rfl
      have e1 : wireBytes (r :: rs) ++ e.bytes ++ rest
          = [1, r.typ, r.idHi, r.idLo, r.content.length / 256, r.content.length % 256,
              r.padding.length, r.reserved] ++ r.content ++ r.padding
            ++ (wireBytes rs ++ e.bytes ++ rest) := by
        simp [wireBytes, WireRecord.bytes]
      have hf1 : rs.length < f := by simpa using hf
      have hty1 : ∀ s ∈ rs, s.typ = RecStdout ∨ s.typ = RecStderr :=
        fun s hs => hty s (List.mem_cons_of_mem _ hs)
      rw [e1]
      rcases hty r (List.mem_cons_self _ _) with h6 | h7
      · have hne : ¬ (r.typ = RecStderr) := by rw [h6]; decide
        rw [DoLoop, h]
        simp only [h6, if_true]
        rw [ih f d _ _ hf1 hty1]
        have hc : ¬ (RecStdout = RecStderr) := by decide
        simp [contentOf, h6, hc, List.filter_cons]
      · have hne : ¬ (r.typ = RecStdout) := by rw [h7]; decide
        have hne2 : ¬ (RecStderr = RecStdout) := by decide
        rw [DoLoop, h]
        simp only [h7, hne2, if_false, if_true]
        rw [ih f d _ _ hf1 hty1]
        simp [contentOf, h7, hne2, List.filter_cons]

theorem wireBytes_length (recs : List WireRecord) : recs.length ≤ (wireBytes recs).length := by
  induction recs with
  | nil => simp
  | cons r rest ih =>
    have e : wireBytes (r :: rest) = r.bytes ++ wireBytes rest := by simp [wireBytes]
    rw [e, List.length_append, List.length_cons]
    have : 8 ≤ r.bytes.length := by simp [WireRecord.bytes]
    omega



/-! ## Reading only shortens the input and leaves the write side alone -/

theorem ReadFull_spec (c : FastCGIConn) (n : Nat) :
    (c.ReadFull n).2.2.c.input.length ≤ c.c.input.length ∧
    (c.ReadFull n).2.2.c.output = c.c.output ∧
    (c.ReadFull n).2.2.c.wfault = c.c.wfault ∧
    (c.ReadFull n).2.2.wr = c.wr ∧
    ((c.ReadFull n).2.1 = none → (c.ReadFull n).2.2.c.input.length + n = c.c.input.length) := by
  unfold FastCGIConn.ReadFull
  by_cases h0 : n = 0
  · simp [h0]
  · by_cases h1 : n ≤ c.c.input.length
    · simp only [h0, h1, if_false, if_true, List.length_drop, true_and]
      omega
    · by_cases h2 : c.c.input = []
      · simp [h0, h1, h2]
      · simp [h0, h1, h2]

theorem ReadRecord_spec (c : FastCGIConn) :
    (c.ReadRecord).2.c.input.length ≤ c.c.input.length ∧
    (c.ReadRecord).2.c.output = c.c.output ∧
    (c.ReadRecord).2.c.wfault = c.c.wfault ∧
    (c.ReadRecord).2.wr = c.wr ∧
    (∀ rec, (c.ReadRecord).1 = Except.ok rec →
      (c.ReadRecord).2.c.input.length + 8 ≤ c.c.input.length) := by
  have h8 := ReadFull_spec c 8
  unfold FastCGIConn.ReadRecord
  rcases hr : c.ReadFull 8 with ⟨hdr, e8, c1⟩
  rw [hr] at h8
  have a1 : c1.c.input.length ≤ c.c.input.length := h8.1
  have a2 : c1.c.output = c.c.output := h8.2.1
  have a3 : c1.c.wfault = c.c.wfault := h8.2.2.1
  have a4 : c1.wr = c.wr := h8.2.2.2.1
  cases e8 with
  | some err =>
    refine ⟨a1, a2, a3, a4, ?_⟩
    intro rec h
    cases h
  | none =>
    have a5 : c1.c.input.length + 8 = c.c.input.length := h8.2.2.2.2 rfl
    dsimp only
    by_cases hv : hdr.getD 0 0 ≠ 1
    · rw [if_pos hv]
      refine ⟨a1, a2, a3, a4, ?_⟩
      intro rec h
      cases h
    · rw [if_neg hv]
      have hc := ReadFull_spec c1 ((hdr.getD 4 0 <<< 8) + hdr.getD 5 0)
      rcases hr2 : c1.ReadFull ((hdr.getD 4 0 <<< 8) + hdr.getD 5 0) with ⟨pl, e2, c2⟩
      rw [hr2] at hc
      have b1 : c2.c.input.length ≤ c1.c.input.length := hc.1
      have b2 : c2.c.output = c1.c.output := hc.2.1
      have b3 : c2.c.wfault = c1.c.wfault := hc.2.2.1
      have b4 : c2.wr = c1.wr := hc.2.2.2.1
      cases e2 with
      | some err =>
        refine ⟨Nat.le_trans b1 a1, b2.trans a2, b3.trans a3, b4.trans a4, ?_⟩
        intro rec h
        cases h
      | none =>
        have hp := ReadFull_spec c2 (hdr.getD 6 0)
        simp only [FastCGIConn.Discard]
        rcases hr3 : c2.ReadFull (hdr.getD 6 0) with ⟨pd, e3, c3⟩
        rw [hr3] at hp
        have d1 : c3.c.input.length ≤ c2.c.input.length := hp.1
        have d2 : c3.c.output = c2.c.output := hp.2.1
        have d3 : c3.c.wfault = c2.c.wfault := hp.2.2.1
        have d4 : c3.wr = c2.wr := hp.2.2.2.1
        cases e3 with
        | some err =>
          refine ⟨Nat.le_trans d1 (Nat.le_trans b1 a1), d2.trans (b2.trans a2),
            d3.trans (b3.trans a3), d4.trans (b4.trans a4), ?_⟩
          intro rec h
          cases h
        | none =>
          refine ⟨Nat.le_trans d1 (Nat.le_trans b1 a1), d2.trans (b2.trans a2),
            d3.trans (b3.trans a3), d4.trans (b4.trans a4), ?_⟩
          intro rec _
          show c3.c.input.length + 8 ≤ c.c.input.length
          omega

/-- The bound `Do` passes to its read loop is never used up: any two bounds above the
number of bytes still to come give the same result. -/
theorem DoLoop_fuel (sw : Option Err) :
    ∀ (f1 f2 : Nat) (c : FastCGIConn) (so se : List Byte),
      c.c.input.length < f1 → c.c.input.length < f2 →
      DoLoop sw f1 c so se = DoLoop sw f2 c so se := by
  intro f1
  induction f1 with
  | zero => intro f2 c so se h; simp at h
  | succ f1 ih =>
    intro f2 c so se h1 h2
    cases f2 with
    | zero => simp at h2
    | succ f2 =>
      have hs := ReadRecord_spec c
      rw [DoLoop, DoLoop]
      rcases hr : c.ReadRecord with ⟨res, c1⟩
      rw [hr] at hs
      cases res with
      | error err => rfl
      | ok rec =>
        have hlt := hs.2.2.2.2 rec rfl
        simp only at hlt ⊢
        rw [ih f2 c1 _ _ (by omega) (by omega), ih f2 c1 _ _ (by omega) (by omega)]

/-- The read loop of `Do` always hands back a response, and leaves the write side of the
connection as it found it. -/
theorem DoLoop_spec (sw : Option Err) :
    ∀ (f : Nat) (c : FastCGIConn) (so se : List Byte), c.c.input.length < f →
      (DoLoop sw f c so se).response ≠ none ∧
      (DoLoop sw f c so se).conn.c.output = c.c.output ∧
      (DoLoop sw f c so se).conn.wr = c.wr ∧
      (DoLoop sw f c so se).sinwerr = some sw := by
  intro f
  induction f with
  | zero => intro c so se h; simp at h
  | succ f ih =>
    intro c so se h
    have hs := ReadRecord_spec c
    rw [DoLoop]
    rcases hr : c.ReadRecord with ⟨res, c1⟩
    rw [hr] at hs
    cases res with
    | error err => simpa using ⟨hs.2.1, hs.2.2.2.1⟩
    | ok rec =>
      have hlt := hs.2.2.2.2 rec rfl
      simp only at hlt hs ⊢
      have i1 := ih c1 (so ++ rec.Payload) se (by omega)
      have i2 := ih c1 so (se ++ rec.Payload) (by omega)
      rw [hs.2.1, hs.2.2.2.1] at i1 i2
      split
      · exact i1
      · split
        · exact i2
        · split
          · simpa using ⟨hs.2.1, hs.2.2.2.1⟩
          · simpa using ⟨hs.2.1, hs.2.2.2.1⟩



/-! ## `Write14Len` on a buffer -/

theorem Write14Len_small (buf : List Byte) (n : Nat) (h : n ≤ 127) :
    Write14Len BufferWriteByte buf (n : Int) = (none, buf ++ [n]) := by
  have h1 : ¬ ((n : Int) < 0) := by omega
  have h2 : ¬ ((n : Int) > 0x7F) := by omega
  have h3 : n % 256 = n := by omega
  simp [Write14Len, h1, h2, BufferWriteByte, byte, h3]

theorem Write14Len_large (buf : List Byte) (n : Nat) (h : 128 ≤ n) :
    Write14Len BufferWriteByte buf (n : Int)
      = (none, buf ++ [(n / 2 ^ 24 % 256) ||| 0x80, n / 2 ^ 16 % 256, n / 2 ^ 8 % 256,
          n % 256]) := by
  have h1 : ¬ ((n : Int) < 0) := by omega
  have h2 : ((n : Int) > 0x7F) := by omega
  have e8 := byte_hi n
  have e0 := byte_lo n
  have e24 := byte_b3 n
  have e16 := byte_b2 n
  simp only [Nat.reducePow] at e24 e16
  simp [Write14Len, h1, h2, BufferWriteByte, e8, e0, e24, e16]

theorem Write14Len_append (buf : List Byte) (n : Nat) :
    (Write14Len BufferWriteByte buf (n : Int)).2 = buf ++ lenBytes n := by
  by_cases h : n ≤ 127
  · simp [lenBytes, Write14Len_small _ n h]
  · simp [lenBytes, Write14Len_large _ n (by omega)]

theorem NewParamStream_fold (params : List FastCGIParam) :
    ∀ buf : List Byte,
      params.foldl
        (fun buf p =>
          let buf1 := (Write14Len BufferWriteByte buf (p.Name.length : Nat)).2
          let buf2 := (Write14Len BufferWriteByte buf1 (p.Value.length : Nat)).2
          buf2 ++ p.Name ++ p.Value)
        buf
      = buf ++ (params.map (fun p =>
          lenBytes p.Name.length ++ lenBytes p.Value.length ++ p.Name ++ p.Value)).flatten := by
  induction params with
  | nil => intro buf; simp
  | cons p ps ih =>
    intro buf
    rw [List.foldl_cons, ih]
    simp [Write14Len_append]

/-! ## Counting chunks -/

theorem flatten_length_le (b : Nat) (ps : List (List Byte)) (h : ∀ p ∈ ps, p.length ≤ b) :
    ps.flatten.length ≤ b * ps.length := by
  induction ps with
  | nil => simp
  | cons p rest ih =>
    have hp := h p (List.mem_cons_self _ _)
    have := ih (fun q hq => h q (List.mem_cons_of_mem _ hq))
    rw [List.flatten_cons, List.length_append, List.length_cons, Nat.mul_succ]
    omega

theorem flatten_length_eq (b : Nat) (ps : List (List Byte)) (h : ∀ p ∈ ps, p.length = b) :
    ps.flatten.length = b * ps.length := by
  induction ps with
  | nil => simp
  | cons p rest ih =>
    have hp := h p (List.mem_cons_self _ _)
    have := ih (fun q hq => h q (List.mem_cons_of_mem _ hq))
    rw [List.flatten_cons, List.length_append, List.length_cons, Nat.mul_succ]
    omega



/-! ## A request whose writes all succeed -/

theorem readerChunks_length_le (b : Nat) (r : Option Source) (h : readerOK b r) :
    ∀ p ∈ readerChunks r, p.length ≤ b := by
  cases r with
  | none => intro p hp; simp [readerChunks] at hp
  | some src => exact chunks_length_le b src h

theorem readerChunks_ne_nil (r : Option Source) : ∀ p ∈ readerChunks r, p ≠ [] := by
  cases r with
  | none => intro p hp; simp [readerChunks] at hp
  | some src => exact chunks_ne_nil src

theorem Do_ok (c : FastCGIConn) (stdin params : Option Source) (hw : c.c.wfault = none)
    (hp : readerOK 2048 params) (hs : readerOK 2048 stdin) :
    c.Do stdin params
      = DoLoop none (c.c.input.length + 1) (c.sent (recordsBytes (requestRecords stdin params)))
          [] [] := by
  have h1 := WriteRecord_sent c RecBeginRequest
    (some [0, FcgiRoleResponder, FcgiFlagKeepConn, 0, 0, 0, 0, 0]) hw (by simp)
  have h2 := WriteStream_ok RecParams 2048 (by omega) params
    (c.sent (recordBytes RecBeginRequest [0, FcgiRoleResponder, FcgiFlagKeepConn, 0, 0, 0, 0, 0]))
    hw hp
  rcases hr2 : (c.sent (recordBytes RecBeginRequest
    [0, FcgiRoleResponder, FcgiFlagKeepConn, 0, 0, 0, 0, 0])).WriteStream RecParams params 2048
    with ⟨e2, c2, s2⟩
  rw [hr2] at h2
  obtain ⟨h2a, h2b⟩ := h2
  simp only at h2a h2b
  subst h2a
  have hw2 : c2.c.wfault = none := by rw [h2b]; exact hw
  have h3 := WriteStream_ok RecStdin 2048 (by omega) stdin c2 hw2 hs
  rcases hr3 : c2.WriteStream RecStdin stdin 2048 with ⟨e3, c3, s3⟩
  rw [hr3] at h3
  obtain ⟨h3a, h3b⟩ := h3
  simp only at h3a h3b
  subst h3a
  simp only [Option.getD_some] at h1
  simp only [FastCGIConn.Do, h1, hr2, hr3]
  rw [h3b, h2b]
  simp [sent_sent, sent_input, requestRecords, recordsBytes, Function.comp_def]



/-! ## The claims -/

/-- C1. Record round trip: for every record type `t` and every payload of at most 65535
bytes (`nil` included), when no write fails, `WriteRecord` returns no error and puts on
the connection, after what was still buffered, the `8 + len` bytes `recordBytes t p`; and
`ReadRecord` on these bytes followed by any bytes `rest` returns the record of type `t`
with payload `p` and leaves exactly `rest` unread. -/
theorem C1_record_round_trip (c d : FastCGIConn) (t : FastCGIRecordType)
    (data : Option (List Byte)) (rest : List Byte)
    (hw : c.c.wfault = none) (hlen : (data.getD []).length ≤ 65535) :
    c.WriteRecord t data = (none, c.sent (recordBytes t (data.getD []))) ∧
    (recordBytes t (data.getD [])).length = 8 + (data.getD []).length ∧
    (d.withInput (recordBytes t (data.getD []) ++ rest)).ReadRecord
      = (Except.ok { Typ := t, Payload := data.getD [] }, d.withInput rest) :=
  ⟨WriteRecord_sent c t data hw hlen, recordBytes_length t _ hlen,
    ReadRecord_recordBytes d t _ rest hlen⟩

theorem C1_record_round_trip_witness :
    idleConn.c.wfault = none ∧ ((some [104, 105] : Option (List Byte)).getD []).length ≤ 65535 ∧
    (idleConn.withInput (recordBytes 6 [104, 105] ++ [9])).ReadRecord
      = (Except.ok { Typ := 6, Payload := [104, 105] }, idleConn.withInput [9]) :=
  ⟨rfl, by decide,
    (C1_record_round_trip idleConn idleConn 6 (some [104, 105]) [9] rfl (by decide)).2.2⟩

/-- C2. Record encoding layout: for every record type `t` and every payload `p` of at most
65535 bytes (`nil` included), when no write fails, `WriteRecord` returns no error, leaves
nothing buffered, and adds to the connection, after what was still buffered, exactly the
header `[1, t, 0, 1, len(p) div 256, len(p) mod 256, 0, 0]` followed by `p`. -/
theorem C2_record_layout (c : FastCGIConn) (t : FastCGIRecordType)
    (data : Option (List Byte))
    (hw : c.c.wfault = none) (hlen : (data.getD []).length ≤ 65535) :
    (c.WriteRecord t data).1 = none ∧
    (c.WriteRecord t data).2.wr = [] ∧
    (c.WriteRecord t data).2.c.output
      = c.c.output ++ (c.wr ++ ([1, t, 0, 1, (data.getD []).length / 256,
          (data.getD []).length % 256, 0, 0] ++ data.getD [])) := by
  rw [WriteRecord_ok c t data hw hlen]
  exact ⟨rfl, rfl, rfl⟩

theorem C2_record_layout_witness :
    idleConn.c.wfault = none ∧ ((none : Option (List Byte)).getD []).length ≤ 65535 ∧
    (idleConn.WriteRecord 4 none).2.c.output = [1, 4, 0, 1, 0, 0, 0, 0] :=
  ⟨rfl, by decide, (C2_record_layout idleConn 4 none rfl (by decide)).2.2⟩

/-- C3. Record decoding with padding: on every input of the form
`[1, t, idHi, idLo, cHi, cLo, padLen, reserved] ++ content ++ padding ++ rest` with
`len(content) = 256 * cHi + cLo` and `len(padding) = padLen`, `ReadRecord` returns the
record of type `t` with payload `content` and leaves exactly `rest` unread, whatever the
request id, the reserved byte and the padding bytes are. -/
theorem C3_decode_with_padding (d : FastCGIConn)
    (t idHi idLo cHi cLo padLen reserved : Byte) (content padding rest : List Byte)
    (hc : content.length = 256 * cHi + cLo) (hp : padding.length = padLen) :
    (d.withInput ([1, t, idHi, idLo, cHi, cLo, padLen, reserved] ++ content ++ padding
      ++ rest)).ReadRecord
      = (Except.ok { Typ := t, Payload := content }, d.withInput rest) :=
  ReadRecord_wire d t idHi idLo cHi cLo padLen reserved content padding rest hc hp

theorem C3_decode_with_padding_witness :
    ([10, 20, 30] : List Byte).length = 256 * 0 + 3 ∧ ([77, 78] : List Byte).length = 2 ∧
    (idleConn.withInput ([1, 6, 5, 9, 0, 3, 2, 255] ++ [10, 20, 30] ++ [77, 78]
      ++ [99])).ReadRecord
      = (Except.ok { Typ := 6, Payload := [10, 20, 30] }, idleConn.withInput [99]) :=
  ⟨rfl, rfl, C3_decode_with_padding idleConn 6 5 9 0 3 2 255 [10, 20, 30] [77, 78] [99] rfl rfl⟩

/-- C4. Variable-length integer round trip: for every length `n` with
`0 ≤ n ≤ 2^31 - 1`, `Write14Len` returns no error, and the FastCGI length decoding applied
to the bytes it writes, followed by any bytes `rest`, yields `n` and leaves exactly
`rest`. -/
theorem C4_length_round_trip (n : Int) (h0 : 0 ≤ n) (h1 : n ≤ 2 ^ 31 - 1) (rest : List Byte) :
    (Write14Len BufferWriteByte [] n).1 = none ∧
    specDecode14Len ((Write14Len BufferWriteByte [] n).2 ++ rest) = some (n.toNat, rest) := by
  obtain ⟨m, rfl⟩ := Int.eq_ofNat_of_zero_le h0
  have hm : m ≤ 2 ^ 31 - 1 := by omega
  by_cases hs : m ≤ 127
  · have : m < 128 := by omega
    simp [Write14Len_small [] m hs, specDecode14Len, this]
  · have hx : m / 2 ^ 24 % 256 < 128 := by omega
    rw [Write14Len_large [] m (by omega), or_0x80 _ hx]
    have hb : ¬ (m / 2 ^ 24 % 256 + 128 < 128) := by omega
    have hand : (m / 2 ^ 24 % 256 + 128) &&& 0x7F = m / 2 ^ 24 := by
      have h7 : (0x7F : Nat) = 2 ^ 7 - 1 := by norm_num
      rw [h7, Nat.and_pow_two_sub_one_eq_mod]
      omega
    simp only [List.nil_append, List.cons_append, specDecode14Len, hb, if_false, hand,
      Nat.shiftLeft_eq, Int.toNat_ofNat, true_and]
    simp only [Option.some.injEq, Prod.mk.injEq, and_true]
    omega

theorem C4_length_round_trip_witness :
    (0 : Int) ≤ 300 ∧ (300 : Int) ≤ 2 ^ 31 - 1 ∧
    specDecode14Len ((Write14Len BufferWriteByte [] 300).2 ++ [7]) = some (300, [7]) :=
  ⟨by decide, by decide, (C4_length_round_trip 300 (by decide) (by decide) [7]).2⟩

/-- C5. Variable-length integer encoding shape: for every `n` with `0 ≤ n ≤ 127`,
`Write14Len` writes exactly the one byte `n`; for every `n` with `128 ≤ n ≤ 2^31 - 1` it
writes exactly the four bytes of the big-endian 32-bit representation of `n + 2^31`, that
is of `n` with the high bit of the first byte set. -/
theorem C5_length_shape (n : Int) (h0 : 0 ≤ n) (h1 : n ≤ 2 ^ 31 - 1) :
    Write14Len BufferWriteByte [] n
      = (none, if n ≤ 127 then [n.toNat] else bigEndian32 (n.toNat + 2 ^ 31)) := by
  obtain ⟨m, rfl⟩ := Int.eq_ofNat_of_zero_le h0
  have hm : m ≤ 2 ^ 31 - 1 := by omega
  by_cases hs : m ≤ 127
  · have : ((m : Int) ≤ 127) := by omega
    simp [Write14Len_small [] m hs, this]
  · have : ¬ ((m : Int) ≤ 127) := by omega
    have hx : m / 2 ^ 24 % 256 < 128 := by omega
    rw [Write14Len_large [] m (by omega), or_0x80 _ hx]
    have e1 : (m + 2 ^ 31) / 2 ^ 24 % 256 = m / 2 ^ 24 % 256 + 128 := by omega
    have e2 : (m + 2 ^ 31) / 2 ^ 16 % 256 = m / 2 ^ 16 % 256 := by omega
    have e3 : (m + 2 ^ 31) / 2 ^ 8 % 256 = m / 2 ^ 8 % 256 := by omega
    have e4 : (m + 2 ^ 31) % 256 = m % 256 := by omega
    simp only [this, if_false, bigEndian32, Int.toNat_ofNat, List.nil_append, e1, e2, e3, e4]

theorem C5_length_shape_witness :
    (0 : Int) ≤ 300 ∧ (300 : Int) ≤ 2 ^ 31 - 1 ∧
    Write14Len BufferWriteByte [] 300 = (none, [128, 0, 1, 44]) :=
  ⟨by decide, by decide, C5_length_shape 300 (by decide) (by decide)⟩

/-- C6. Parameter stream layout: the bytes of `NewParamStream(params)` are the
concatenation, in input order, over each parameter of the `Write14Len` bytes of the length
of its name, the `Write14Len` bytes of the length of its value, the name and the value;
the empty list gives the empty stream, a parameter given twice appears twice, and the
stream of `a ++ b` is the stream of `a` followed by the stream of `b`. -/
theorem C6_param_stream_layout (params a b : List FastCGIParam) (p : FastCGIParam) :
    NewParamStream params
      = (params.map (fun q =>
          lenBytes q.Name.length ++ lenBytes q.Value.length ++ q.Name ++ q.Value)).flatten ∧
    NewParamStream [] = [] ∧
    NewParamStream [p, p]
      = (lenBytes p.Name.length ++ lenBytes p.Value.length ++ p.Name ++ p.Value)
        ++ (lenBytes p.Name.length ++ lenBytes p.Value.length ++ p.Name ++ p.Value) ∧
    NewParamStream (a ++ b) = NewParamStream a ++ NewParamStream b := by
  have h : ∀ ps : List FastCGIParam, NewParamStream ps
      = (ps.map (fun q =>
          lenBytes q.Name.length ++ lenBytes q.Value.length ++ q.Name ++ q.Value)).flatten := by
    intro ps
    have := NewParamStream_fold ps []
    simpa [NewParamStream] using this
  refine ⟨h params, rfl, ?_, ?_⟩
  · rw [h]; simp
  · rw [h, h, h]; simp



/-- C7. Response aggregation: when the peer sends Stdout and Stderr records `recs`
followed by an EndRequest record `e` and then any bytes `rest`, no write fails and the
parameter and body readers are well-behaved, `Do` returns no error and a response whose
Stdout is the concatenation of the Stdout contents in arrival order and whose Stderr is
the concatenation of the Stderr contents in arrival order, and it leaves exactly `rest`
unread. -/
theorem C7_response_aggregation (c : FastCGIConn) (stdin params : Option Source)
    (recs : List WireRecord) (e : WireRecord) (rest : List Byte)
    (hw : c.c.wfault = none) (hp : readerOK 2048 params) (hs : readerOK 2048 stdin)
    (hty : ∀ r ∈ recs, r.typ = RecStdout ∨ r.typ = RecStderr) (he : e.typ = RecEndRequest)
    (hin : c.c.input = wireBytes recs ++ e.bytes ++ rest) :
    (c.Do stdin params).err = none ∧
    (c.Do stdin params).response
      = some { Stdout := contentOf RecStdout recs, Stderr := contentOf RecStderr recs } ∧
    (c.Do stdin params).conn.c.input = rest := by
  have hlen : recs.length < c.c.input.length + 1 := by
    have := wireBytes_length recs
    rw [hin, List.length_append, List.length_append]
    omega
  have hc : c.sent (recordsBytes (requestRecords stdin params))
      = (c.sent (recordsBytes (requestRecords stdin params))).withInput
          (wireBytes recs ++ e.bytes ++ rest) := by
    rw [← hin]
    rfl
  rw [Do_ok c stdin params hw hp hs, hc, DoLoop_wire none e rest he recs _ _ [] [] hlen hty]
  exact ⟨rfl, rfl, rfl⟩

theorem C7_response_aggregation_witness :
    (idleConn.withInput (wireBytes [statusOkRecord] ++ endRequestRecord.bytes ++ [])).c.wfault
      = none ∧
    readerOK 2048 (some [{ data := NewParamStream [requestMethodGet], err := none }]) ∧
    readerOK 2048 (some []) ∧
    (∀ r ∈ [statusOkRecord], r.typ = RecStdout ∨ r.typ = RecStderr) ∧
    endRequestRecord.typ = RecEndRequest ∧
    ((idleConn.withInput (wireBytes [statusOkRecord] ++ endRequestRecord.bytes ++ [])).Do
        (some []) (some [{ data := NewParamStream [requestMethodGet], err := none }])).err
      = none ∧
    ((idleConn.withInput (wireBytes [statusOkRecord] ++ endRequestRecord.bytes ++ [])).Do
        (some []) (some [{ data := NewParamStream [requestMethodGet], err := none }])).response
      = some { Stdout := [83, 116, 97, 116, 117, 115, 58, 32, 50, 48, 48, 32, 79, 75, 13, 10,
                 13, 10, 104, 105],
               Stderr := [] } :=
  have hp : readerOK 2048 (some [{ data := NewParamStream [requestMethodGet], err := none }]) :=
    ⟨by decide, Or.inl ⟨rfl, trivial⟩⟩
  have hty : ∀ r ∈ [statusOkRecord], r.typ = RecStdout ∨ r.typ = RecStderr := by
    intro r hr
    rw [List.mem_singleton.mp hr]
    exact Or.inl rfl
  have h := C7_response_aggregation
    (idleConn.withInput (wireBytes [statusOkRecord] ++ endRequestRecord.bytes ++ []))
    (some []) (some [{ data := NewParamStream [requestMethodGet], err := none }])
    [statusOkRecord] endRequestRecord [] rfl hp trivial hty rfl rfl
  ⟨rfl, hp, trivial, hty, rfl, h.1, h.2.1⟩



/-- C9. Stream framing regardless of read sizes: for every record type `t`, every buffer
size `b ≤ 65535` and every source that delivers a byte sequence through reads of at most
`b` bytes each and then reports end-of-stream, when no write fails, `WriteStream` returns
no error and puts on the connection exactly the records of type `t` whose payloads are the
non-empty chunks read, in order, followed by one record of type `t` with empty payload;
these bytes decode to exactly that list of records; the payloads concatenated are the byte
sequence of the source; every chunk has between 1 and `b` bytes. A `nil` source gives
exactly one empty record. -/
theorem C9_stream_framing (c : FastCGIConn) (t : FastCGIRecordType) (b : Nat) (src : Source)
    (hb : b ≤ 65535) (hw : c.c.wfault = none) (hsrc : Source.wellBehaved b src) :
    (c.WriteStream t (some src) b).1 = none ∧
    (c.WriteStream t (some src) b).2.1
      = c.sent (recordsBytes ((Source.chunks src).map (fun p => { Typ := t, Payload := p })
          ++ [{ Typ := t, Payload := [] }])) ∧
    recordsOn (recordsBytes ((Source.chunks src).map (fun p => { Typ := t, Payload := p })
          ++ [{ Typ := t, Payload := [] }]))
      = Except.ok ((Source.chunks src).map (fun p => { Typ := t, Payload := p })
          ++ [{ Typ := t, Payload := [] }]) ∧
    (Source.chunks src).flatten = Source.bytes src ∧
    (∀ p ∈ Source.chunks src, 1 ≤ p.length ∧ p.length ≤ b) ∧
    (c.WriteStream t none b).1 = none ∧
    (c.WriteStream t none b).2.1 = c.sent (recordsBytes [{ Typ := t, Payload := [] }]) := by
  have h := WriteStream_ok t b hb (some src) c hw hsrc
  have hle := chunks_length_le b src hsrc
  have hne := chunks_ne_nil src
  have hn := WriteStream_ok t b hb none c hw trivial
  refine ⟨h.1, ?_, ?_, chunks_flatten b src hsrc, ?_, hn.1, ?_⟩
  · rw [h.2, recordsBytes_stream]
    rfl
  · apply recordsOn_recordsBytes
    intro r hr
    rcases List.mem_append.mp hr with hr | hr
    · obtain ⟨p, hp, rfl⟩ := List.mem_map.mp hr
      exact Nat.le_trans (hle p hp) hb
    · rw [List.mem_singleton.mp hr]
      simp
  · intro p hp
    exact ⟨List.length_pos.mpr (hne p hp), hle p hp⟩
  · rw [hn.2]
    simp [readerChunks, recordsBytes]

theorem C9_stream_framing_witness :
    (3 : Nat) ≤ 65535 ∧ idleConn.c.wfault = none ∧
    Source.wellBehaved 3 [⟨[1, 2], none⟩, ⟨[], none⟩, ⟨[3, 4, 5], some Err.EOF⟩] ∧
    (idleConn.WriteStream 5 (some [⟨[1, 2], none⟩, ⟨[], none⟩, ⟨[3, 4, 5], some Err.EOF⟩]) 3).2.1
      = idleConn.sent (recordsBytes [⟨5, [1, 2]⟩, ⟨5, [3, 4, 5]⟩, ⟨5, []⟩]) :=
  have hs : Source.wellBehaved 3 [⟨[1, 2], none⟩, ⟨[], none⟩, ⟨[3, 4, 5], some Err.EOF⟩] :=
    ⟨by decide, Or.inl ⟨rfl, by decide, Or.inl ⟨rfl, by decide,
      Or.inr ⟨rfl, Or.inr (by simp)⟩⟩⟩⟩
  ⟨by decide, rfl, hs,
    (C9_stream_framing idleConn 5 3 [⟨[1, 2], none⟩, ⟨[], none⟩, ⟨[3, 4, 5], some Err.EOF⟩]
      (by decide) rfl hs).2.1⟩



/-- C8, as stated, fails: a body of 2 bytes (`k = 0`, `r = 2`) that its reader hands over
one byte per read is written as two non-empty Stdin records followed by the empty one,
not as `k + 1 = 1` non-empty record. -/
theorem C8_stdin_record_count_counterexample :
    Source.wellBehaved 2048 [⟨[1], none⟩, ⟨[2], none⟩] ∧
    (Source.bytes [⟨[1], none⟩, ⟨[2], none⟩]).length = 2048 * 0 + 2 ∧
    (idleConn.WriteStream RecStdin (some [⟨[1], none⟩, ⟨[2], none⟩]) 2048).1 = none ∧
    recordsOn (idleConn.WriteStream RecStdin (some [⟨[1], none⟩, ⟨[2], none⟩]) 2048).2.1.c.output
      = Except.ok [⟨RecStdin, [1]⟩, ⟨RecStdin, [2]⟩, ⟨RecStdin, []⟩] ∧
    (([⟨RecStdin, [1]⟩, ⟨RecStdin, [2]⟩, ⟨RecStdin, []⟩] : List FastCGIRecord).filter
        (fun r => r.Payload ≠ [])).length
      ≠ 0 + (if 2 > 0 then 1 else 0) :=
  ⟨⟨by decide, Or.inl ⟨rfl, by decide, Or.inl ⟨rfl, trivial⟩⟩⟩, by decide, by decide, rfl,
    by decide⟩

/-- C8, amended. For every body source that delivers exactly `2048 * k + r` bytes with
`r < 2048` and then reports end-of-stream, when no write fails,
`WriteStream(RecStdin, body, 2048)` returns no error and emits one Stdin record with
non-empty payload for each non-empty read of the source, followed by exactly one Stdin
record with empty payload, and no other record. The number of non-empty records is at
least `k + (1 if r > 0 else 0)`, and it is exactly that number when every non-empty read
but the last returns 2048 bytes. -/
theorem C8_stdin_record_count (c : FastCGIConn) (src : Source) (k r : Nat)
    (hw : c.c.wfault = none) (hsrc : Source.wellBehaved 2048 src)
    (hlen : (Source.bytes src).length = 2048 * k + r) (hr : r < 2048) :
    (c.WriteStream RecStdin (some src) 2048).1 = none ∧
    (c.WriteStream RecStdin (some src) 2048).2.1
      = c.sent (recordsBytes ((Source.chunks src).map (fun p => { Typ := RecStdin, Payload := p })
          ++ [{ Typ := RecStdin, Payload := [] }])) ∧
    recordsOn (recordsBytes ((Source.chunks src).map
          (fun p => { Typ := RecStdin, Payload := p }) ++ [{ Typ := RecStdin, Payload := [] }]))
      = Except.ok ((Source.chunks src).map (fun p => { Typ := RecStdin, Payload := p })
          ++ [{ Typ := RecStdin, Payload := [] }]) ∧
    (∀ p ∈ Source.chunks src, p ≠ []) ∧
    k + (if r > 0 then 1 else 0) ≤ (Source.chunks src).length ∧
    ((∀ front last, Source.chunks src = front ++ [last] → ∀ p ∈ front, p.length = 2048) →
      (Source.chunks src).length = k + (if r > 0 then 1 else 0)) := by
  have h := WriteStream_ok RecStdin 2048 (by omega) (some src) c hw hsrc
  have hle := chunks_length_le 2048 src hsrc
  have hne := chunks_ne_nil src
  have hfl := chunks_flatten 2048 src hsrc
  have htot := flatten_length_le 2048 (Source.chunks src) hle
  rw [hfl, hlen] at htot
  refine ⟨h.1, ?_, ?_, hne, ?_, ?_⟩
  · rw [h.2, recordsBytes_stream]
    rfl
  · apply recordsOn_recordsBytes
    intro q hq
    rcases List.mem_append.mp hq with hq | hq
    · obtain ⟨p, hp, rfl⟩ := List.mem_map.mp hq
      exact Nat.le_trans (hle p hp) (by omega)
    · rw [List.mem_singleton.mp hq]
      simp
  · split <;> omega
  · intro hfull
    rcases List.eq_nil_or_concat (Source.chunks src) with hnil | ⟨front, last, hcat⟩
    · have h0 : (Source.bytes src).length = 0 := by rw [← hfl, hnil]; rfl
      rw [hnil]
      have hk : k = 0 := by omega
      have hr0 : r = 0 := by omega
      simp [hk, hr0]
    · rw [List.concat_eq_append] at hcat
      have hf := flatten_length_eq 2048 front (hfull front last hcat)
      have hl1 : last ≠ [] := hne last (by rw [hcat]; simp)
      have hl2 : last.length ≤ 2048 := hle last (by rw [hcat]; simp)
      have hl3 : 0 < last.length := List.length_pos.mpr hl1
      have e : (Source.bytes src).length = 2048 * front.length + last.length := by
        rw [← hfl, hcat, List.flatten_append, List.length_append, hf]
        simp
      rw [hcat, List.length_append, List.length_singleton]
      split <;> omega

theorem C8_stdin_record_count_witness :
    idleConn.c.wfault = none ∧
    Source.wellBehaved 2048 [⟨[1, 2, 3], none⟩] ∧
    (Source.bytes [⟨[1, 2, 3], none⟩]).length = 2048 * 0 + 3 ∧ 3 < 2048 ∧
    (idleConn.WriteStream RecStdin (some [⟨[1, 2, 3], none⟩]) 2048).2.1
      = idleConn.sent (recordsBytes [⟨RecStdin, [1, 2, 3]⟩, ⟨RecStdin, []⟩]) :=
  have hs : Source.wellBehaved 2048 [⟨[1, 2, 3], none⟩] := ⟨by decide, Or.inl ⟨rfl, trivial⟩⟩
  ⟨rfl, hs, by decide, by decide,
    (C8_stdin_record_count idleConn [⟨[1, 2, 3], none⟩] 0 3 rfl hs (by decide) (by decide)).2.1⟩



/-- C10. Request prologue: for every well-behaved parameter and body reader and every peer
input, when no write fails, the bytes `Do` puts on the connection are exactly the 16-byte
BeginRequest record `[1,1,0,1,0,8,0,0, 0,1,1,0,0,0,0,0]`, then the parameter stream framed
as Params records of between 1 and 2048 payload bytes each, then the empty Params record
`[1,4,0,1,0,0,0,0]`, and only then the Stdin records, which end with the empty Stdin
record; these bytes decode to exactly that list of records. -/
theorem C10_request_prologue (c : FastCGIConn) (stdin params : Option Source)
    (hw : c.c.wfault = none) (hp : readerOK 2048 params) (hs : readerOK 2048 stdin) :
    (c.Do stdin params).conn.c.output
      = c.c.output ++ (c.wr ++ ([1, 1, 0, 1, 0, 8, 0, 0, 0, 1, 1, 0, 0, 0, 0, 0]
          ++ ((readerChunks params).map (recordBytes RecParams)).flatten
          ++ [1, 4, 0, 1, 0, 0, 0, 0]
          ++ (((readerChunks stdin).map (recordBytes RecStdin)).flatten
              ++ [1, 5, 0, 1, 0, 0, 0, 0]))) ∧
    (readerChunks params).flatten = readerBytes params ∧
    (∀ p ∈ readerChunks params, 1 ≤ p.length ∧ p.length ≤ 2048) ∧
    recordsOn ([1, 1, 0, 1, 0, 8, 0, 0, 0, 1, 1, 0, 0, 0, 0, 0]
          ++ ((readerChunks params).map (recordBytes RecParams)).flatten
          ++ [1, 4, 0, 1, 0, 0, 0, 0]
          ++ (((readerChunks stdin).map (recordBytes RecStdin)).flatten
              ++ [1, 5, 0, 1, 0, 0, 0, 0]))
      = Except.ok (requestRecords stdin params) := by
  have hb : recordsBytes (requestRecords stdin params)
      = [1, 1, 0, 1, 0, 8, 0, 0, 0, 1, 1, 0, 0, 0, 0, 0]
          ++ ((readerChunks params).map (recordBytes RecParams)).flatten
          ++ [1, 4, 0, 1, 0, 0, 0, 0]
          ++ (((readerChunks stdin).map (recordBytes RecStdin)).flatten
              ++ [1, 5, 0, 1, 0, 0, 0, 0]) := by
    have e1 : recordBytes RecBeginRequest [0, FcgiRoleResponder, FcgiFlagKeepConn, 0, 0, 0, 0, 0]
        = [1, 1, 0, 1, 0, 8, 0, 0, 0, 1, 1, 0, 0, 0, 0, 0] := by decide
    have e2 : recordBytes RecParams [] = [1, 4, 0, 1, 0, 0, 0, 0] := by decide
    have e3 : recordBytes RecStdin [] = [1, 5, 0, 1, 0, 0, 0, 0] := by decide
    simp [requestRecords, recordsBytes, Function.comp_def, e1, e2, e3]
  have hlp := readerChunks_length_le 2048 params hp
  have hls := readerChunks_length_le 2048 stdin hs
  refine ⟨?_, ?_, ?_, ?_⟩
  · have hd := (DoLoop_spec none (c.c.input.length + 1)
      (c.sent (recordsBytes (requestRecords stdin params))) [] [] (Nat.lt_succ_self _)).2.1
    rw [Do_ok c stdin params hw hp hs, hd, hb]
    rfl
  · cases params with
    | none => rfl
    | some src => exact chunks_flatten 2048 src hp
  · intro p hq
    exact ⟨List.length_pos.mpr (readerChunks_ne_nil params p hq), hlp p hq⟩
  · rw [← hb]
    apply recordsOn_recordsBytes
    intro r hr
    simp only [requestRecords, List.mem_append, List.mem_map, List.mem_singleton] at hr
    rcases hr with (((hr | ⟨p, hq, rfl⟩) | hr) | ⟨p, hq, rfl⟩) | hr
    · rw [hr]; simp
    · exact Nat.le_trans (hlp p hq) (by omega)
    · rw [hr]; simp
    · exact Nat.le_trans (hls p hq) (by omega)
    · rw [hr]; simp

theorem C10_request_prologue_witness :
    idleConn.c.wfault = none ∧ readerOK 2048 (some [⟨[7, 8], none⟩]) ∧ readerOK 2048 none ∧
    (idleConn.Do none (some [⟨[7, 8], none⟩])).conn.c.output
      = [1, 1, 0, 1, 0, 8, 0, 0, 0, 1, 1, 0, 0, 0, 0, 0,
         1, 4, 0, 1, 0, 2, 0, 0, 7, 8,
         1, 4, 0, 1, 0, 0, 0, 0,
         1, 5, 0, 1, 0, 0, 0, 0] :=
  have hp : readerOK 2048 (some [⟨[7, 8], none⟩]) := ⟨by decide, Or.inl ⟨rfl, trivial⟩⟩
  ⟨rfl, hp, trivial, (C10_request_prologue idleConn none (some [⟨[7, 8], none⟩]) rfl hp trivial).1⟩



/-! ## The write path in general: what a write can return and what it leaves alone -/

theorem tick_input (nc nc1 : NetConn) (h : nc.tick = some nc1) :
    nc1.input = nc.input := by
  unfold NetConn.tick at h
  split at h
  · cases h; rfl
  · cases h
  · cases h; rfl

theorem WriteByte_frame (c : FastCGIConn) (b : Byte) :
    ((c.WriteByte b).1 = none ∨ (c.WriteByte b).1 = some Err.writeFault) ∧
    (c.WriteByte b).2.c.input = c.c.input := by
  unfold FastCGIConn.WriteByte
  cases h : c.c.tick with
  | none => exact ⟨Or.inr rfl, rfl⟩
  | some nc => exact ⟨Or.inl rfl, tick_input _ _ h⟩

theorem Write_frame (c : FastCGIConn) (p : List Byte) :
    ((c.Write p).1 = none ∨ (c.Write p).1 = some Err.writeFault) ∧
    (c.Write p).2.c.input = c.c.input := by
  unfold FastCGIConn.Write
  cases h : c.c.tick with
  | none => exact ⟨Or.inr rfl, rfl⟩
  | some nc => exact ⟨Or.inl rfl, tick_input _ _ h⟩

theorem Flush_frame (c : FastCGIConn) :
    (c.Flush.1 = none ∨ c.Flush.1 = some Err.writeFault) ∧
    c.Flush.2.c.input = c.c.input := by
  unfold FastCGIConn.Flush
  cases h : c.c.tick with
  | none => exact ⟨Or.inr rfl, rfl⟩
  | some nc =>
    have hi : nc.input = c.c.input := tick_input _ _ h
    exact ⟨Or.inl rfl, hi⟩

theorem WriteUint16_frame (c : FastCGIConn) (n : Int) (h0 : 0 ≤ n) (h1 : n ≤ 0xFFFF) :
    ((c.WriteUint16 n).1 = none ∨ (c.WriteUint16 n).1 = some Err.writeFault) ∧
    (c.WriteUint16 n).2.c.input = c.c.input := by
  have hn0 : ¬ (n < 0) := by omega
  have hn1 : ¬ (n > 0xFFFF) := by omega
  unfold FastCGIConn.WriteUint16
  rw [if_neg hn0, if_neg hn1]
  have a := WriteByte_frame c (byte ((n.toNat &&& 0xFF00) >>> 8))
  rcases hr : c.WriteByte (byte ((n.toNat &&& 0xFF00) >>> 8)) with ⟨e1, c1⟩
  rw [hr] at a
  cases e1 with
  | some err => exact a
  | none =>
    have b := WriteByte_frame c1 (byte (n.toNat &&& 0xFF))
    exact ⟨b.1, b.2.trans a.2⟩

theorem WriteRecord_frame (c : FastCGIConn) (t : FastCGIRecordType) (data : Option (List Byte))
    (hn : (data.getD []).length ≤ 65535) :
    ((c.WriteRecord t data).1 = none ∨ (c.WriteRecord t data).1 = some Err.writeFault) ∧
    (c.WriteRecord t data).2.c.input = c.c.input := by
  unfold FastCGIConn.WriteRecord
  have a1 := WriteByte_frame c 1
  rcases hr1 : c.WriteByte 1 with ⟨e1, c1⟩
  rw [hr1] at a1
  cases e1 with
  | some err => exact a1
  | none =>
  dsimp only
  have a2 := WriteByte_frame c1 t
  rcases hr2 : c1.WriteByte t with ⟨e2, c2⟩
  rw [hr2] at a2
  cases e2 with
  | some err =>
    dsimp only
    exact ⟨a2.1, a2.2.trans a1.2⟩
  | none =>
  dsimp only
  have a3 := WriteUint16_frame c2 1 (by omega) (by omega)
  rcases hr3 : c2.WriteUint16 1 with ⟨e3, c3⟩
  rw [hr3] at a3
  cases e3 with
  | some err =>
    dsimp only
    exact ⟨a3.1, a3.2.trans (a2.2.trans a1.2)⟩
  | none =>
  dsimp only
  have a4 := WriteUint16_frame c3 ((data.getD []).length : Nat) (by omega) (by omega)
  rcases hr4 : c3.WriteUint16 ((data.getD []).length : Nat) with ⟨e4, c4⟩
  rw [hr4] at a4
  cases e4 with
  | some err =>
    dsimp only
    exact ⟨a4.1, a4.2.trans (a3.2.trans (a2.2.trans a1.2))⟩
  | none =>
  dsimp only
  have a5 := WriteUint16_frame c4 0 (by omega) (by omega)
  rcases hr5 : c4.WriteUint16 0 with ⟨e5, c5⟩
  rw [hr5] at a5
  have i5 : c5.c.input = c.c.input := a5.2.trans (a4.2.trans (a3.2.trans (a2.2.trans a1.2)))
  cases e5 with
  | some err =>
    dsimp only
    exact ⟨a5.1, i5⟩
  | none =>
  dsimp only
  cases data with
  | none =>
    dsimp only
    have a6 := Flush_frame c5
    exact ⟨a6.1, a6.2.trans i5⟩
  | some p =>
    dsimp only
    have a6 := Write_frame c5 p
    rcases hr6 : c5.Write p with ⟨e6, c6⟩
    rw [hr6] at a6
    cases e6 with
    | some err =>
    dsimp only
    exact ⟨a6.1, a6.2.trans i5⟩
    | none =>
      have a7 := Flush_frame c6
      exact ⟨a7.1, a7.2.trans (a6.2.trans i5)⟩



theorem WriteStreamLoop_input (t : FastCGIRecordType) (b : Nat) (hb : b ≤ 65535)
    (src : Source) :
    ∀ c : FastCGIConn, (WriteStreamLoop t b c src).2.1.c.input = c.c.input := by
  induction src with
  | nil =>
    intro c
    exact (WriteRecord_frame c t none (by simp)).2
  | cons r rest ih =>
    intro c
    unfold WriteStreamLoop
    dsimp only
    by_cases hn : r.data.length > 0
    · rw [if_pos hn]
      by_cases hs : b < r.data.length
      · rw [if_pos hs]
      · rw [if_neg hs]
        have a := WriteRecord_frame c t (some r.data) (by simp; omega)
        rcases hr : c.WriteRecord t (some r.data) with ⟨e1, c1⟩
        rw [hr] at a
        cases e1 with
        | some err => exact a.2
        | none =>
          dsimp only
          exact (ih c1).trans a.2
    · rw [if_neg hn]
      by_cases he : r.err = some Err.EOF
      · rw [if_pos he]
        exact (WriteRecord_frame c t none (by simp)).2
      · rw [if_neg he]
        by_cases h0 : r.err ≠ none
        · rw [if_pos h0]
        · rw [if_neg h0]
          exact ih c

theorem WriteStream_input (t : FastCGIRecordType) (b : Nat) (hb : b ≤ 65535)
    (r : Option Source) (c : FastCGIConn) :
    (c.WriteStream t r b).2.1.c.input = c.c.input := by
  cases r with
  | none => exact (WriteRecord_frame c t none (by simp)).2
  | some src => exact WriteStreamLoop_input t b hb src c

/-- What `WriteStream` can return: nothing, a failure of the writer, a failure reported by
the reader, or the panic of the slice expression for a read that returned more than the
buffer holds. It is never a panic of `WriteUint16`. -/
theorem WriteStreamLoop_err (t : FastCGIRecordType) (b : Nat) (hb : b ≤ 65535)
    (src : Source) (hs : readerErrors (some src)) :
    ∀ c : FastCGIConn,
      (WriteStreamLoop t b c src).1 = none ∨
      (WriteStreamLoop t b c src).1 = some Err.writeFault ∨
      (∃ k, (WriteStreamLoop t b c src).1 = some (Err.sourceFault k)) ∨
      (∃ r ∈ src, b < r.data.length ∧
        (WriteStreamLoop t b c src).1 = some (Err.panicSlice r.data.length)) := by
  induction src with
  | nil =>
    intro c
    rcases (WriteRecord_frame c t none (by simp)).1 with h | h
    · exact Or.inl h
    · exact Or.inr (Or.inl h)
  | cons r rest ih =>
    intro c
    have hrest : readerErrors (some rest) := fun s hs1 => hs s (List.mem_cons_of_mem _ hs1)
    have lift : ∀ c1 : FastCGIConn,
        (WriteStreamLoop t b c1 rest).1 = none ∨
        (WriteStreamLoop t b c1 rest).1 = some Err.writeFault ∨
        (∃ k, (WriteStreamLoop t b c1 rest).1 = some (Err.sourceFault k)) ∨
        (∃ s ∈ r :: rest, b < s.data.length ∧
          (WriteStreamLoop t b c1 rest).1 = some (Err.panicSlice s.data.length)) := by
      intro c1
      rcases ih hrest c1 with h | h | h | ⟨s, hs1, hs2, hs3⟩
      · exact Or.inl h
      · exact Or.inr (Or.inl h)
      · exact Or.inr (Or.inr (Or.inl h))
      · exact Or.inr (Or.inr (Or.inr ⟨s, List.mem_cons_of_mem _ hs1, hs2, hs3⟩))
    unfold WriteStreamLoop
    dsimp only
    by_cases hn : r.data.length > 0
    · rw [if_pos hn]
      by_cases hsl : b < r.data.length
      · rw [if_pos hsl]
        exact Or.inr (Or.inr (Or.inr ⟨r, List.mem_cons_self _ _, hsl, rfl⟩))
      · rw [if_neg hsl]
        have a := WriteRecord_frame c t (some r.data) (by simp; omega)
        rcases hr : c.WriteRecord t (some r.data) with ⟨e1, c1⟩
        rw [hr] at a
        cases e1 with
        | some err =>
          rcases a.1 with h | h
          · exact Or.inl h
          · exact Or.inr (Or.inl h)
        | none =>
          dsimp only
          exact lift c1
    · rw [if_neg hn]
      by_cases he : r.err = some Err.EOF
      · rw [if_pos he]
        rcases (WriteRecord_frame c t none (by simp)).1 with h | h
        · exact Or.inl h
        · exact Or.inr (Or.inl h)
      · rw [if_neg he]
        by_cases h0 : r.err ≠ none
        · rw [if_pos h0]
          rcases hs r (List.mem_cons_self _ _) with h | h | ⟨k, h⟩
          · exact absurd h h0
          · exact absurd h he
          · exact Or.inr (Or.inr (Or.inl ⟨k, h⟩))
        · rw [if_neg h0]
          exact lift c

theorem WriteStream_err (t : FastCGIRecordType) (b : Nat) (hb : b ≤ 65535)
    (r : Option Source) (hs : readerErrors r) (c : FastCGIConn) :
    (c.WriteStream t r b).1 = none ∨
    (c.WriteStream t r b).1 = some Err.writeFault ∨
    (∃ k, (c.WriteStream t r b).1 = some (Err.sourceFault k)) ∨
    (∃ n, b < n ∧ ¬ readerContract b r ∧ (c.WriteStream t r b).1 = some (Err.panicSlice n)) := by
  cases r with
  | none =>
    rcases (WriteRecord_frame c t none (by simp)).1 with h | h
    · exact Or.inl h
    · exact Or.inr (Or.inl h)
  | some src =>
    rcases WriteStreamLoop_err t b hb src hs c with h | h | h | ⟨s, hs1, hs2, hs3⟩
    · exact Or.inl h
    · exact Or.inr (Or.inl h)
    · exact Or.inr (Or.inr (Or.inl h))
    · refine Or.inr (Or.inr (Or.inr ⟨s.data.length, hs2, ?_, hs3⟩))
      intro hc
      exact absurd (hc s hs1) (by omega)



/-! ## `Do` in general -/

theorem DoPrologue_input (c : FastCGIConn) (params : Option Source) :
    (DoPrologue c params).2.c.input = c.c.input := by
  unfold DoPrologue
  have a := WriteRecord_frame c RecBeginRequest
    (some [0, FcgiRoleResponder, FcgiFlagKeepConn, 0, 0, 0, 0, 0]) (by simp)
  rcases hr : c.WriteRecord RecBeginRequest
    (some [0, FcgiRoleResponder, FcgiFlagKeepConn, 0, 0, 0, 0, 0]) with ⟨e1, c1⟩
  rw [hr] at a
  cases e1 with
  | some err => exact a.2
  | none =>
    dsimp only
    have b := WriteStream_input RecParams 2048 (by omega) params c1
    rcases hr2 : c1.WriteStream RecParams params 2048 with ⟨e2, c2, s2⟩
    rw [hr2] at b
    exact b.trans a.2

theorem DoBodyWriter_input (c : FastCGIConn) (stdin params : Option Source) :
    (DoBodyWriter c stdin params).2.c.input = c.c.input := by
  unfold DoBodyWriter
  have b := WriteStream_input RecStdin 2048 (by omega) stdin (DoPrologue c params).2
  rcases hr : (DoPrologue c params).2.WriteStream RecStdin stdin 2048 with ⟨e, c3, s3⟩
  rw [hr] at b
  exact b.trans (DoPrologue_input c params)

/-- When a write of the prologue fails, `Do` returns that error and no response, and the
body writer is not started. -/
theorem Do_prologue_failed (c : FastCGIConn) (stdin params : Option Source) (e : Err)
    (h : (DoPrologue c params).1 = some e) :
    (c.Do stdin params).response = none ∧ (c.Do stdin params).err = some e ∧
    (c.Do stdin params).sinwerr = none ∧ (c.Do stdin params).received = false := by
  unfold DoPrologue at h
  unfold FastCGIConn.Do
  rcases hr : c.WriteRecord RecBeginRequest
    (some [0, FcgiRoleResponder, FcgiFlagKeepConn, 0, 0, 0, 0, 0]) with ⟨e1, c1⟩
  rw [hr] at h
  cases e1 with
  | some err =>
    dsimp only at h ⊢
    exact ⟨rfl, h, rfl, rfl⟩
  | none =>
    dsimp only at h ⊢
    rcases hr2 : c1.WriteStream RecParams params 2048 with ⟨e2, c2, s2⟩
    rw [hr2] at h
    dsimp only at h
    subst h
    exact ⟨rfl, rfl, rfl, rfl⟩

/-- When the prologue is written and the body writer does not panic, `Do` is its read
loop, run with the outcome of the body writer on the connection the writes leave. -/
theorem Do_reads (c : FastCGIConn) (stdin params : Option Source)
    (hpro : (DoPrologue c params).1 = none)
    (hnp : ((DoBodyWriter c stdin params).1.map Err.isPanic).getD false = false) :
    c.Do stdin params
      = DoLoop (DoBodyWriter c stdin params).1 (c.c.input.length + 1)
          (DoBodyWriter c stdin params).2 [] [] := by
  have hin := DoBodyWriter_input c stdin params
  unfold DoBodyWriter at hnp hin ⊢
  unfold DoPrologue at hpro hnp hin ⊢
  unfold FastCGIConn.Do
  rcases hr : c.WriteRecord RecBeginRequest
    (some [0, FcgiRoleResponder, FcgiFlagKeepConn, 0, 0, 0, 0, 0]) with ⟨e1, c1⟩
  rw [hr] at hpro hnp hin
  cases e1 with
  | some err => cases hpro
  | none =>
    dsimp only at hpro hnp hin ⊢
    rcases hr2 : c1.WriteStream RecParams params 2048 with ⟨e2, c2, s2⟩
    rw [hr2] at hpro hnp hin
    dsimp only at hpro hnp hin ⊢
    subst hpro
    dsimp only
    rcases hr3 : c2.WriteStream RecStdin stdin 2048 with ⟨e3, c3, s3⟩
    rw [hr3] at hnp hin
    dsimp only at hnp hin ⊢
    rw [hnp, hin]
    rfl

theorem DoLoop_leading (sw : Option Err) (tail : List Byte) (recs : List WireRecord) :
    ∀ (fuel : Nat) (d : FastCGIConn) (so se : List Byte), recs.length ≤ fuel →
      (∀ r ∈ recs, r.typ = RecStdout ∨ r.typ = RecStderr) →
      DoLoop sw fuel (d.withInput (wireBytes recs ++ tail)) so se
        = DoLoop sw (fuel - recs.length) (d.withInput tail)
            (so ++ contentOf RecStdout recs) (se ++ contentOf RecStderr recs) := by
  induction recs with
  | nil =>
    intro fuel d so se _ _
    simp [wireBytes, contentOf]
  | cons r rs ih =>
    intro fuel d so se hf hty
    cases fuel with
    | zero => simp at hf
    | succ f =>
      have h := ReadRecord_wire d r.typ r.idHi r.idLo (r.content.length / 256)
        (r.content.length % 256) r.padding.length r.reserved r.content r.padding
        (wireBytes rs ++ tail) (Nat.div_add_mod _ 256).symm rfl
      have e1 : wireBytes (r :: rs) ++ tail
          = [1, r.typ, r.idHi, r.idLo, r.content.length / 256, r.content.length % 256,
              r.padding.length, r.reserved] ++ r.content ++ r.padding
            ++ (wireBytes rs ++ tail) := by
        simp [wireBytes, WireRecord.bytes]
      have hf1 : rs.length ≤ f := by simpa using hf
      have hty1 : ∀ s ∈ rs, s.typ = RecStdout ∨ s.typ = RecStderr :=
        fun s hs => hty s (List.mem_cons_of_mem _ hs)
      have hsub : f + 1 - (r :: rs).length = f - rs.length := by simp
      rw [e1, hsub]
      rcases hty r (List.mem_cons_self _ _) with h6 | h7
      · rw [DoLoop, h]
        simp only [h6, if_true]
        rw [ih f d _ _ hf1 hty1]
        have hc : ¬ (RecStdout = RecStderr) := by decide
        simp [contentOf, h6, hc, List.filter_cons]
      · have hne2 : ¬ (RecStderr = RecStdout) := by decide
        rw [DoLoop, h]
        simp only [h7, hne2, if_false, if_true]
        rw [ih f d _ _ hf1 hty1]
        simp [contentOf, h7, hne2, List.filter_cons]

/-- After the leading Stdout and Stderr records `recs`, `Do` continues its read loop on
what follows them with their contents in the two buffers. -/
theorem Do_leading (c : FastCGIConn) (stdin params : Option Source)
    (recs : List WireRecord) (tail : List Byte)
    (hpro : (DoPrologue c params).1 = none)
    (hnp : ((DoBodyWriter c stdin params).1.map Err.isPanic).getD false = false)
    (hty : ∀ r ∈ recs, r.typ = RecStdout ∨ r.typ = RecStderr)
    (hin : c.c.input = wireBytes recs ++ tail) :
    c.Do stdin params
      = DoLoop (DoBodyWriter c stdin params).1 (tail.length + 1)
          ((DoBodyWriter c stdin params).2.withInput tail)
          (contentOf RecStdout recs) (contentOf RecStderr recs) := by
  have hb := DoBodyWriter_input c stdin params
  have hc : (DoBodyWriter c stdin params).2
      = (DoBodyWriter c stdin params).2.withInput (wireBytes recs ++ tail) := by
    rw [← hin, ← hb]
    rfl
  have hl := wireBytes_length recs
  have hlen : recs.length ≤ c.c.input.length + 1 := by
    rw [hin, List.length_append]
    omega
  rw [Do_reads c stdin params hpro hnp, hc,
    DoLoop_leading _ tail recs _ _ [] [] hlen hty]
  simp only [List.nil_append]
  apply DoLoop_fuel
  · show tail.length < c.c.input.length + 1 - recs.length
    rw [hin, List.length_append]
    omega
  · show tail.length < tail.length + 1
    omega



/-! ## One turn of the read loop -/

theorem DoLoop_read_error (sw : Option Err) (f : Nat) (d : FastCGIConn) (so se : List Byte)
    (e : Err) (h : d.ReadRecord.1 = Except.error e) :
    DoLoop sw (f + 1) d so se
      = { response := some { Stdout := so, Stderr := se }, err := some e,
          conn := d.ReadRecord.2, sinwerr := some sw, received := false } := by
  rw [DoLoop]
  rcases hr : d.ReadRecord with ⟨res, c1⟩
  rw [hr] at h
  dsimp only at h
  subst h
  rfl

theorem DoLoop_read_end (sw : Option Err) (f : Nat) (d : FastCGIConn) (so se : List Byte)
    (e : WireRecord) (rest : List Byte) (he : e.typ = RecEndRequest) :
    DoLoop sw (f + 1) (d.withInput (e.bytes ++ rest)) so se
      = { response := some { Stdout := so, Stderr := se }, err := sw,
          conn := d.withInput rest, sinwerr := some sw, received := true } := by
  have h := ReadRecord_wire d e.typ e.idHi e.idLo (e.content.length / 256)
    (e.content.length % 256) e.padding.length e.reserved e.content e.padding rest
    (Nat.div_add_mod _ 256).symm rfl
  have hb : e.bytes ++ rest
      = [1, e.typ, e.idHi, e.idLo, e.content.length / 256, e.content.length % 256,
          e.padding.length, e.reserved] ++ e.content ++ e.padding ++ rest := by
    simp [WireRecord.bytes]
  rw [hb, DoLoop, h]
  simp [he, RecEndRequest, RecStdout, RecStderr]

theorem DoLoop_read_other (sw : Option Err) (f : Nat) (d : FastCGIConn) (so se : List Byte)
    (bad : WireRecord) (rest : List Byte)
    (h6 : bad.typ ≠ RecStdout) (h7 : bad.typ ≠ RecStderr) (h3 : bad.typ ≠ RecEndRequest) :
    DoLoop sw (f + 1) (d.withInput (bad.bytes ++ rest)) so se
      = { response := some { Stdout := so, Stderr := se },
          err := some (Err.recordType bad.typ),
          conn := d.withInput rest, sinwerr := some sw, received := false } := by
  have h := ReadRecord_wire d bad.typ bad.idHi bad.idLo (bad.content.length / 256)
    (bad.content.length % 256) bad.padding.length bad.reserved bad.content bad.padding rest
    (Nat.div_add_mod _ 256).symm rfl
  have hb : bad.bytes ++ rest
      = [1, bad.typ, bad.idHi, bad.idLo, bad.content.length / 256, bad.content.length % 256,
          bad.padding.length, bad.reserved] ++ bad.content ++ bad.padding ++ rest := by
    simp [WireRecord.bytes]
  rw [hb, DoLoop, h]
  simp only [h6, h7, h3, if_false]

/-- C11. Unexpected record type: when `Do` has written BeginRequest and the parameter
stream and its body writer does not panic, and the peer sends Stdout and Stderr records
`recs` followed by a record `bad` whose type is none of Stdout, Stderr and EndRequest,
`Do` returns the unexpected-record-type error for that type, together with a response
whose Stdout and Stderr hold exactly the contents of the Stdout and Stderr records among
`recs`, in arrival order. This holds whatever the outcome of the body writer is. -/
theorem C11_unexpected_record_type (c : FastCGIConn) (stdin params : Option Source)
    (recs : List WireRecord) (bad : WireRecord) (rest : List Byte)
    (hpro : (DoPrologue c params).1 = none)
    (hnp : ((DoBodyWriter c stdin params).1.map Err.isPanic).getD false = false)
    (hty : ∀ r ∈ recs, r.typ = RecStdout ∨ r.typ = RecStderr)
    (h6 : bad.typ ≠ RecStdout) (h7 : bad.typ ≠ RecStderr) (h3 : bad.typ ≠ RecEndRequest)
    (hin : c.c.input = wireBytes recs ++ (bad.bytes ++ rest)) :
    (c.Do stdin params).err = some (Err.recordType bad.typ) ∧
    (c.Do stdin params).response
      = some { Stdout := contentOf RecStdout recs, Stderr := contentOf RecStderr recs } := by
  rw [Do_leading c stdin params recs (bad.bytes ++ rest) hpro hnp hty hin,
    DoLoop_read_other _ _ _ _ _ bad rest h6 h7 h3]
  exact ⟨rfl, rfl⟩

theorem C11_unexpected_record_type_witness :
    (DoPrologue (idleConn.withInput (wireBytes [statusOkRecord]
      ++ (abortRecord.bytes ++ [5]))) none).1 = none ∧
    ((idleConn.withInput (wireBytes [statusOkRecord] ++ (abortRecord.bytes ++ [5]))).Do
        none none).err = some (Err.recordType 2) ∧
    ((idleConn.withInput (wireBytes [statusOkRecord] ++ (abortRecord.bytes ++ [5]))).Do
        none none).response
      = some { Stdout := [83, 116, 97, 116, 117, 115, 58, 32, 50, 48, 48, 32, 79, 75, 13, 10,
                 13, 10, 104, 105],
               Stderr := [] } :=
  have hty : ∀ r ∈ [statusOkRecord], r.typ = RecStdout ∨ r.typ = RecStderr := by
    intro r hr
    rw [List.mem_singleton.mp hr]
    exact Or.inl rfl
  ⟨by decide,
    C11_unexpected_record_type
      (idleConn.withInput (wireBytes [statusOkRecord] ++ (abortRecord.bytes ++ [5])))
      none none [statusOkRecord] abortRecord [5] (by decide)
      (by decide) hty (by decide) (by decide) (by decide) rfl⟩



/-- C12, as stated, fails: when the connection rejects the flush of the BeginRequest
record, `Do` returns the write error and a nil response. -/
theorem C12_response_on_failure_counterexample :
    ((NewFastCGIConn { input := [], output := [], wfault := some 9 }).Do none none).err
      = some Err.writeFault ∧
    ((NewFastCGIConn { input := [], output := [], wfault := some 9 }).Do none none).response
      = none := by
  decide

/-- C12, amended. When writing BeginRequest or the parameter stream fails, `Do` returns
that error with a nil response. When both are written and the body writer does not panic,
`Do` always returns a response; if the peer has sent Stdout and Stderr records `recs` and
the next `ReadRecord` fails with an error `e` (end of stream, truncated record, version
error), `Do` returns `e` with the response that holds the contents of `recs` per stream,
and the same response comes with the unexpected-record-type error when the next record
has a type `Do` does not expect. -/
theorem C12_response_on_failure (c : FastCGIConn) (stdin params : Option Source)
    (recs : List WireRecord) (tail : List Byte)
    (hnp : ((DoBodyWriter c stdin params).1.map Err.isPanic).getD false = false)
    (hty : ∀ r ∈ recs, r.typ = RecStdout ∨ r.typ = RecStderr)
    (hin : c.c.input = wireBytes recs ++ tail) :
    (∀ e, (DoPrologue c params).1 = some e →
      (c.Do stdin params).err = some e ∧ (c.Do stdin params).response = none) ∧
    ((DoPrologue c params).1 = none →
      (c.Do stdin params).response ≠ none ∧
      (∀ e, (∀ d : FastCGIConn, (d.withInput tail).ReadRecord.1 = Except.error e) →
        (c.Do stdin params).err = some e ∧
        (c.Do stdin params).response
          = some { Stdout := contentOf RecStdout recs, Stderr := contentOf RecStderr recs }) ∧
      (∀ (bad : WireRecord) (rest : List Byte), tail = bad.bytes ++ rest →
        bad.typ ≠ RecStdout → bad.typ ≠ RecStderr → bad.typ ≠ RecEndRequest →
        (c.Do stdin params).err = some (Err.recordType bad.typ) ∧
        (c.Do stdin params).response
          = some { Stdout := contentOf RecStdout recs,
                   Stderr := contentOf RecStderr recs })) := by
  refine ⟨?_, ?_⟩
  · intro e he
    have h := Do_prologue_failed c stdin params e he
    exact ⟨h.2.1, h.1⟩
  · intro hpro
    have hl := Do_leading c stdin params recs tail hpro hnp hty hin
    refine ⟨?_, ?_, ?_⟩
    · rw [Do_reads c stdin params hpro hnp]
      exact (DoLoop_spec _ _ _ [] [] (by
        rw [DoBodyWriter_input c stdin params]
        exact Nat.lt_succ_self _)).1
    · intro e he
      rw [hl, DoLoop_read_error _ _ _ _ _ e (he _)]
      exact ⟨rfl, rfl⟩
    · intro bad rest ht h6 h7 h3
      rw [hl, ht, DoLoop_read_other _ _ _ _ _ bad rest h6 h7 h3]
      exact ⟨rfl, rfl⟩

theorem C12_response_on_failure_witness :
    ((DoBodyWriter (idleConn.withInput (wireBytes [statusOkRecord] ++ [1, 6, 0])) none
        none).1.map Err.isPanic).getD false = false ∧
    (DoPrologue (idleConn.withInput (wireBytes [statusOkRecord] ++ [1, 6, 0])) none).1 = none ∧
    ((idleConn.withInput (wireBytes [statusOkRecord] ++ [1, 6, 0])).Do none none).err
      = some Err.ErrUnexpectedEOF ∧
    ((idleConn.withInput (wireBytes [statusOkRecord] ++ [1, 6, 0])).Do none none).response
      = some { Stdout := contentOf RecStdout [statusOkRecord],
               Stderr := contentOf RecStderr [statusOkRecord] } :=
  have hty : ∀ r ∈ [statusOkRecord], r.typ = RecStdout ∨ r.typ = RecStderr := by
    intro r hr
    rw [List.mem_singleton.mp hr]
    exact Or.inl rfl
  ⟨by decide, by decide,
    ((C12_response_on_failure (idleConn.withInput (wireBytes [statusOkRecord] ++ [1, 6, 0]))
      none none [statusOkRecord] [1, 6, 0] (by decide) hty rfl).2 (by decide)).2.1
      Err.ErrUnexpectedEOF (fun _ => rfl)⟩

/-- C17. Body-writer outcome on completion: when `Do` has written BeginRequest and the
parameter stream, its body writer does not panic, and the peer sends Stdout and Stderr
records `recs` followed by an EndRequest record, the error `Do` returns is exactly what
the body writer's `WriteStream(RecStdin, stdin, 2048)` returned, nil or its error, and it
comes with the response that holds all the contents of `recs`; `Do` has received the
outcome from the channel, and the bytes after the EndRequest record stay unread. -/
theorem C17_body_writer_outcome (c : FastCGIConn) (stdin params : Option Source)
    (recs : List WireRecord) (e : WireRecord) (rest : List Byte)
    (hpro : (DoPrologue c params).1 = none)
    (hnp : ((DoBodyWriter c stdin params).1.map Err.isPanic).getD false = false)
    (hty : ∀ r ∈ recs, r.typ = RecStdout ∨ r.typ = RecStderr) (he : e.typ = RecEndRequest)
    (hin : c.c.input = wireBytes recs ++ (e.bytes ++ rest)) :
    (c.Do stdin params).err = (DoBodyWriter c stdin params).1 ∧
    (c.Do stdin params).err = ((DoPrologue c params).2.WriteStream RecStdin stdin 2048).1 ∧
    (c.Do stdin params).response
      = some { Stdout := contentOf RecStdout recs, Stderr := contentOf RecStderr recs } ∧
    (c.Do stdin params).received = true ∧
    (c.Do stdin params).conn.c.input = rest := by
  rw [Do_leading c stdin params recs (e.bytes ++ rest) hpro hnp hty hin,
    DoLoop_read_end _ _ _ _ _ e rest he]
  exact ⟨rfl, rfl, rfl, rfl, rfl⟩

theorem C17_body_writer_outcome_witness :
    (DoPrologue (idleConn.withInput (wireBytes [statusOkRecord]
      ++ (endRequestRecord.bytes ++ []))) none).1 = none ∧
    ((idleConn.withInput (wireBytes [statusOkRecord] ++ (endRequestRecord.bytes ++ []))).Do
        (some [⟨[], some (Err.sourceFault 7)⟩]) none).err = some (Err.sourceFault 7) ∧
    ((idleConn.withInput (wireBytes [statusOkRecord] ++ (endRequestRecord.bytes ++ []))).Do
        (some [⟨[], some (Err.sourceFault 7)⟩]) none).response
      = some { Stdout := contentOf RecStdout [statusOkRecord],
               Stderr := contentOf RecStderr [statusOkRecord] } :=
  have hty : ∀ r ∈ [statusOkRecord], r.typ = RecStdout ∨ r.typ = RecStderr := by
    intro r hr
    rw [List.mem_singleton.mp hr]
    exact Or.inl rfl
  have h := C17_body_writer_outcome
    (idleConn.withInput (wireBytes [statusOkRecord] ++ (endRequestRecord.bytes ++ [])))
    (some [⟨[], some (Err.sourceFault 7)⟩]) none [statusOkRecord] endRequestRecord []
    (by decide) (by decide) hty rfl rfl
  ⟨by decide, h.1, h.2.2.1⟩

/-- C18, as stated, fails: when the peer closes the stream without sending anything, `Do`
has started the body writer and returns the read error without having received the
outcome of the body writer from the channel. -/
theorem C18_completion_sync_counterexample :
    (idleConn.Do none none).sinwerr = some none ∧
    (idleConn.Do none none).err = some Err.EOF ∧
    (idleConn.Do none none).received = false := by
  decide

/-- C18, amended. After `Do` has started the body writer: on the path on which an
EndRequest record is received, `Do` returns only after it has received the outcome of
the body writer from the channel, and returns that outcome; on the paths on which
`ReadRecord` fails (read error, version error) or delivers a record of an unexpected
type, `Do` returns the error at once, without receiving from the channel. -/
theorem C18_completion_sync (c : FastCGIConn) (stdin params : Option Source)
    (recs : List WireRecord) (tail : List Byte)
    (hpro : (DoPrologue c params).1 = none)
    (hnp : ((DoBodyWriter c stdin params).1.map Err.isPanic).getD false = false)
    (hty : ∀ r ∈ recs, r.typ = RecStdout ∨ r.typ = RecStderr)
    (hin : c.c.input = wireBytes recs ++ tail) :
    (c.Do stdin params).sinwerr = some (DoBodyWriter c stdin params).1 ∧
    (∀ (e : WireRecord) (rest : List Byte), tail = e.bytes ++ rest → e.typ = RecEndRequest →
      (c.Do stdin params).received = true ∧
      (c.Do stdin params).err = (DoBodyWriter c stdin params).1) ∧
    (∀ e, (∀ d : FastCGIConn, (d.withInput tail).ReadRecord.1 = Except.error e) →
      (c.Do stdin params).received = false ∧ (c.Do stdin params).err = some e) ∧
    (∀ (bad : WireRecord) (rest : List Byte), tail = bad.bytes ++ rest →
      bad.typ ≠ RecStdout → bad.typ ≠ RecStderr → bad.typ ≠ RecEndRequest →
      (c.Do stdin params).received = false ∧
      (c.Do stdin params).err = some (Err.recordType bad.typ)) := by
  have hl := Do_leading c stdin params recs tail hpro hnp hty hin
  refine ⟨?_, ?_, ?_, ?_⟩
  · rw [Do_reads c stdin params hpro hnp]
    exact (DoLoop_spec _ _ _ [] [] (by
      rw [DoBodyWriter_input c stdin params]
      exact Nat.lt_succ_self _)).2.2.2
  · intro e rest ht he
    rw [hl, ht, DoLoop_read_end _ _ _ _ _ e rest he]
    exact ⟨rfl, rfl⟩
  · intro e he
    rw [hl, DoLoop_read_error _ _ _ _ _ e (he _)]
    exact ⟨rfl, rfl⟩
  · intro bad rest ht h6 h7 h3
    rw [hl, ht, DoLoop_read_other _ _ _ _ _ bad rest h6 h7 h3]
    exact ⟨rfl, rfl⟩

theorem C18_completion_sync_witness :
    (DoPrologue (idleConn.withInput (wireBytes [statusOkRecord]
      ++ (endRequestRecord.bytes ++ []))) none).1 = none ∧
    ((idleConn.withInput (wireBytes [statusOkRecord] ++ (endRequestRecord.bytes ++ []))).Do
        none none).received = true :=
  have hty : ∀ r ∈ [statusOkRecord], r.typ = RecStdout ∨ r.typ = RecStderr := by
    intro r hr
    rw [List.mem_singleton.mp hr]
    exact Or.inl rfl
  ⟨by decide,
    ((C18_completion_sync
      (idleConn.withInput (wireBytes [statusOkRecord] ++ (endRequestRecord.bytes ++ [])))
      none none [statusOkRecord] (endRequestRecord.bytes ++ []) (by decide) (by decide) hty
      rfl).2.1 endRequestRecord [] rfl rfl).1⟩



/-! ## Rejected and truncated records -/

/-- C13. Version check: on every input of at least 8 bytes whose first byte is not 1,
`ReadRecord` fails with the header-version error for that byte, returns no record, and
leaves unread exactly what follows the 8 header bytes, whatever the other header fields
are. -/
theorem C13_version_check (d : FastCGIConn) (hdr rest : List Byte)
    (hl : hdr.length = 8) (hv : hdr.getD 0 0 ≠ 1) :
    (d.withInput (hdr ++ rest)).ReadRecord
      = (Except.error (Err.headerVersion (hdr.getD 0 0)), d.withInput rest) := by
  have h8 := ReadFull_append d hdr rest
  rw [hl] at h8
  unfold FastCGIConn.ReadRecord
  rw [h8]
  dsimp only
  rw [if_pos hv]

theorem C13_version_check_witness :
    ([2, 6, 0, 1, 255, 255, 255, 0] : List Byte).length = 8 ∧
    ([2, 6, 0, 1, 255, 255, 255, 0] : List Byte).getD 0 0 ≠ 1 ∧
    (idleConn.withInput ([2, 6, 0, 1, 255, 255, 255, 0] ++ [7, 7])).ReadRecord
      = (Except.error (Err.headerVersion 2), idleConn.withInput [7, 7]) :=
  ⟨rfl, by decide,
    C13_version_check idleConn [2, 6, 0, 1, 255, 255, 255, 0] [7, 7] rfl (by decide)⟩

theorem ReadFull_short (d : FastCGIConn) (xs : List Byte) (n : Nat) (h : xs.length < n) :
    (d.withInput xs).ReadFull n
      = (xs, some (if xs = [] then Err.EOF else Err.ErrUnexpectedEOF), d.withInput []) := by
  have h0 : ¬ (n = 0) := by omega
  have h1 : ¬ (n ≤ xs.length) := by omega
  unfold FastCGIConn.ReadFull
  by_cases hx : xs = []
  · subst hx
    simp [FastCGIConn.withInput, h0]
  · simp [FastCGIConn.withInput, h0, h1, hx]

theorem ReadRecord_truncated (d : FastCGIConn)
    (t idHi idLo cHi cLo padLen reserved : Byte) (content padding : List Byte) (m : Nat)
    (hc : content.length = 256 * cHi + cLo) (hp : padding.length = padLen)
    (hm1 : 1 ≤ m) (hm2 : m < 8 + content.length + padding.length) :
    (d.withInput (([1, t, idHi, idLo, cHi, cLo, padLen, reserved] ++ content ++ padding).take
      m)).ReadRecord
      = (Except.error (if m = 8 ∨ m = 8 + content.length then Err.EOF
          else Err.ErrUnexpectedEOF), d.withInput []) := by
  have hcl : (cHi <<< 8) + cLo = content.length := by
    have e : cHi <<< 8 = cHi * 256 := by rw [Nat.shiftLeft_eq]
    rw [e, hc]
    exact Nat.add_right_cancel_iff.mpr (Nat.mul_comm cHi 256)
  by_cases h8 : m < 8
  · -- the stream ends inside the header
    have hs : (([1, t, idHi, idLo, cHi, cLo, padLen, reserved] ++ content ++ padding).take
        m).length < 8 := by
      simp only [List.length_take, List.length_append, List.length_cons, List.length_nil]
      omega
    have hne : ([1, t, idHi, idLo, cHi, cLo, padLen, reserved] ++ content ++ padding).take m
        ≠ [] := by
      intro h
      have hl := congrArg List.length h
      simp only [List.length_take, List.length_append, List.length_cons, List.length_nil]
        at hl
      omega
    have hm : ¬ (m = 8 ∨ m = 8 + content.length) := by omega
    unfold FastCGIConn.ReadRecord
    rw [ReadFull_short d _ 8 hs, if_neg hne, if_neg hm]
  · -- the header is complete
    have htake : ([1, t, idHi, idLo, cHi, cLo, padLen, reserved] ++ content ++ padding).take m
        = [1, t, idHi, idLo, cHi, cLo, padLen, reserved]
          ++ (content ++ padding).take (m - 8) := by
      rw [List.append_assoc, List.take_append_eq_append_take]
      have : ([1, t, idHi, idLo, cHi, cLo, padLen, reserved] : List Byte).length = 8 := rfl
      rw [this, List.take_of_length_le (by rw [this]; omega)]
    have h1 := ReadFull_append d [1, t, idHi, idLo, cHi, cLo, padLen, reserved]
      ((content ++ padding).take (m - 8))
    simp only [List.length_cons, List.length_nil, Nat.zero_add, Nat.reduceAdd] at h1
    unfold FastCGIConn.ReadRecord
    rw [htake, h1]
    simp only [List.getD_cons_zero, List.getD_cons_succ, ne_eq, not_true_eq_false, if_false,
      hcl]
    by_cases hL : m - 8 < content.length
    · -- the stream ends before the payload is complete
      have ht2 : (content ++ padding).take (m - 8) = content.take (m - 8) :=
        List.take_append_of_le_length (by omega)
      have hs : (content.take (m - 8)).length < content.length := by
        rw [List.length_take]
        omega
      rw [ht2, ReadFull_short d _ _ hs]
      dsimp only
      by_cases hm8 : m = 8
      · have he : content.take (m - 8) = [] := by rw [hm8]; rfl
        have hm : (m = 8 ∨ m = 8 + content.length) := Or.inl hm8
        rw [if_pos he, if_pos hm]
      · have he : content.take (m - 8) ≠ [] := by
          intro h
          have hl := congrArg List.length h
          simp only [List.length_take, List.length_nil] at hl
          omega
        have hm : ¬ (m = 8 ∨ m = 8 + content.length) := by omega
        rw [if_neg he, if_neg hm]
    · -- the payload is complete, the stream ends before the padding is
      have ht2 : (content ++ padding).take (m - 8)
          = content ++ padding.take (m - 8 - content.length) := by
        rw [List.take_append_eq_append_take, List.take_of_length_le (by omega)]
      have h2 := ReadFull_append d content (padding.take (m - 8 - content.length))
      have hs : (padding.take (m - 8 - content.length)).length < padLen := by
        rw [List.length_take]
        omega
      rw [ht2, h2]
      simp only [FastCGIConn.Discard, ReadFull_short d _ _ hs]
      by_cases hmL : m = 8 + content.length
      · have he : padding.take (m - 8 - content.length) = [] := by
          rw [hmL]
          simp
        have hm : (m = 8 ∨ m = 8 + content.length) := Or.inr hmL
        rw [if_pos he, if_pos hm]
      · have he : padding.take (m - 8 - content.length) ≠ [] := by
          intro h
          have hl := congrArg List.length h
          simp only [List.length_take, List.length_nil] at hl
          omega
        have hm : ¬ (m = 8 ∨ m = 8 + content.length) := by omega
        rw [if_neg he, if_neg hm]

/-- C14, as stated, fails: when the stream ends exactly after the 8-byte header of a
record with content length 3, and when it ends exactly after the one-byte payload of a
record with padding length 2, `ReadRecord` fails with `io.EOF`, not with
`io.ErrUnexpectedEOF`. -/
theorem C14_truncated_record_counterexample :
    (idleConn.withInput [1, 6, 0, 1, 0, 3, 0, 0]).ReadRecord.1 = Except.error Err.EOF ∧
    (idleConn.withInput [1, 6, 0, 1, 0, 1, 2, 0, 9]).ReadRecord.1 = Except.error Err.EOF ∧
    Err.EOF ≠ Err.ErrUnexpectedEOF :=
  ⟨rfl, rfl, by decide⟩

/-- C14, amended. For every input stream that closes mid-record, that is, that consists
of the first `m` bytes of a version-1 record with `1 ≤ m` and `m` less than the length of
the record (header, content and padding), `ReadRecord` fails, returns no record and
leaves nothing unread. The error is `io.EOF` when the stream ends exactly after the
8-byte header or exactly after the payload, and `io.ErrUnexpectedEOF` when it ends inside
the header, inside the payload or inside the padding. -/
theorem C14_truncated_record (d : FastCGIConn)
    (t idHi idLo cHi cLo padLen reserved : Byte) (content padding : List Byte) (m : Nat)
    (hc : content.length = 256 * cHi + cLo) (hp : padding.length = padLen)
    (hm1 : 1 ≤ m) (hm2 : m < 8 + content.length + padding.length) :
    (d.withInput (([1, t, idHi, idLo, cHi, cLo, padLen, reserved] ++ content ++ padding).take
      m)).ReadRecord
      = (Except.error (if m = 8 ∨ m = 8 + content.length then Err.EOF
          else Err.ErrUnexpectedEOF), d.withInput []) :=
  ReadRecord_truncated d t idHi idLo cHi cLo padLen reserved content padding m hc hp hm1 hm2

theorem C14_truncated_record_witness :
    ([10, 20, 30] : List Byte).length = 256 * 0 + 3 ∧ ([77, 78] : List Byte).length = 2 ∧
    1 ≤ 10 ∧ 10 < 8 + ([10, 20, 30] : List Byte).length + ([77, 78] : List Byte).length ∧
    (idleConn.withInput (([1, 6, 0, 1, 0, 3, 2, 0] ++ [10, 20, 30] ++ [77, 78]).take
      10)).ReadRecord
      = (Except.error (if 10 = 8 ∨ 10 = 8 + ([10, 20, 30] : List Byte).length then Err.EOF
          else Err.ErrUnexpectedEOF), idleConn.withInput []) :=
  ⟨rfl, rfl, by decide, by decide,
    C14_truncated_record idleConn 6 0 1 0 3 2 0 [10, 20, 30] [77, 78] 10 rfl rfl (by decide)
      (by decide)⟩

/-! ## Lengths out of range and failing sources -/

/-- C15, as stated, fails: for the length `2^31`, which is beyond 31 bits, `Write14Len`
returns no error and writes four bytes (and for `2^31 + 5` the four bytes that decode to
`5`); for the negative length `-1` it does not return an error either, it panics. -/
theorem C15_invalid_length_counterexample :
    (2 : Int) ^ 31 > 2 ^ 31 - 1 ∧
    Write14Len BufferWriteByte [] (2 ^ 31) = (none, [128, 0, 0, 0]) ∧
    Write14Len BufferWriteByte [] (2 ^ 31 + 5) = (none, [128, 0, 0, 5]) ∧
    specDecode14Len [128, 0, 0, 5] = some (5, []) ∧
    Write14Len BufferWriteByte [] (-1) = (some (Err.panicNegative (-1)), []) ∧
    (Err.panicNegative (-1)).isPanic = true := by
  decide

/-- C15, amended. For every negative integer `n` and every writer, `Write14Len` fails by
panicking with the negative-length message instead of writing an encoding of `n`: the
writer is left as it was, no byte having been handed to it. -/
theorem C15_invalid_length {W : Type} (wb : W → Byte → Option Err × W) (wr : W) (n : Int)
    (hn : n < 0) :
    Write14Len wb wr n = (some (Err.panicNegative n), wr) ∧
    (Err.panicNegative n).isPanic = true := by
  unfold Write14Len
  rw [if_pos hn]
  exact ⟨rfl, rfl⟩

theorem C15_invalid_length_witness :
    (-5 : Int) < 0 ∧
    Write14Len BufferWriteByte [9] (-5) = (some (Err.panicNegative (-5)), [9]) :=
  ⟨by decide, (C15_invalid_length BufferWriteByte [9] (-5) (by decide)).1⟩

/-- C16, the code at the failing input: the first `Read` returns one byte together with
an error, the second returns one byte. `WriteStream` writes the first byte as a record,
loses the error, reads the source again until it is exhausted, writes the second byte
and the closing record, and returns no error. -/
theorem C16_read_error_with_data_code :
    idleConn.WriteStream RecStdin
        (some [⟨[1], some (Err.sourceFault 7)⟩, ⟨[2], none⟩]) 2048
      = (none,
         idleConn.sent (recordsBytes [⟨RecStdin, [1]⟩, ⟨RecStdin, [2]⟩, ⟨RecStdin, []⟩]),
         some []) ∧
    idleConn.WriteStream RecStdin
        (some [⟨[], some (Err.sourceFault 7)⟩, ⟨[2], none⟩]) 2048
      = (some (Err.sourceFault 7), idleConn, some [⟨[2], none⟩]) := by
  decide



/-! ## No payload beyond the buffer size, no panic of `WriteUint16` -/

theorem WriteStreamLoopWith_self (typ : FastCGIRecordType) (b : Nat) (src : Source) :
    ∀ c : FastCGIConn,
      WriteStreamLoopWith (fun c t d => c.WriteRecord t d) typ b c src
        = WriteStreamLoop typ b c src := by
  induction src with
  | nil => intro c; rfl
  | cons r rest ih =>
    intro c
    unfold WriteStreamLoopWith WriteStreamLoop
    simp only [ih]

theorem DoWith_self (c : FastCGIConn) (stdin params : Option Source) :
    DoWith (fun c t d => c.WriteRecord t d) c stdin params = c.Do stdin params := by
  have hs : ∀ (c : FastCGIConn) (t : FastCGIRecordType) (r : Option Source) (b : Nat),
      WriteStreamWith (fun c t d => c.WriteRecord t d) c t r b = c.WriteStream t r b := by
    intro c t r b
    cases r with
    | none => rfl
    | some src =>
      unfold WriteStreamWith FastCGIConn.WriteStream
      simp only [WriteStreamLoopWith_self]
  unfold DoWith FastCGIConn.Do
  simp only [hs]

theorem WriteStreamLoopWith_within (typ : FastCGIRecordType) (b : Nat) (src : Source) :
    ∀ c : FastCGIConn,
      WriteStreamLoopWith (WriteRecordWithin b) typ b c src = WriteStreamLoop typ b c src := by
  have h0 : ∀ c : FastCGIConn, WriteRecordWithin b c typ none = c.WriteRecord typ none := by
    intro c
    simp [WriteRecordWithin]
  induction src with
  | nil =>
    intro c
    unfold WriteStreamLoopWith WriteStreamLoop
    rw [h0]
  | cons r rest ih =>
    intro c
    unfold WriteStreamLoopWith WriteStreamLoop
    dsimp only
    by_cases hn : r.data.length > 0
    · rw [if_pos hn, if_pos hn]
      by_cases hs : b < r.data.length
      · rw [if_pos hs, if_pos hs]
      · rw [if_neg hs, if_neg hs]
        have hw : WriteRecordWithin b c typ (some r.data) = c.WriteRecord typ (some r.data) := by
          have : r.data.length ≤ b := by omega
          simp [WriteRecordWithin, this]
        rw [hw]
        simp only [ih]
    · rw [if_neg hn, if_neg hn, h0]
      simp only [ih]

theorem WriteStreamWith_within (typ : FastCGIRecordType) (b : Nat) (r : Option Source)
    (c : FastCGIConn) :
    WriteStreamWith (WriteRecordWithin b) c typ r b = c.WriteStream typ r b := by
  cases r with
  | none =>
    unfold WriteStreamWith FastCGIConn.WriteStream
    simp [WriteRecordWithin]
  | some src =>
    unfold WriteStreamWith FastCGIConn.WriteStream
    simp only [WriteStreamLoopWith_within]

theorem DoWith_within (c : FastCGIConn) (stdin params : Option Source) :
    DoWith (WriteRecordWithin 2048) c stdin params = c.Do stdin params := by
  have hb : WriteRecordWithin 2048 c RecBeginRequest
      (some [0, FcgiRoleResponder, FcgiFlagKeepConn, 0, 0, 0, 0, 0])
      = c.WriteRecord RecBeginRequest
          (some [0, FcgiRoleResponder, FcgiFlagKeepConn, 0, 0, 0, 0, 0]) := by
    simp [WriteRecordWithin]
  unfold DoWith FastCGIConn.Do
  rw [hb]
  simp only [WriteStreamWith_within]

theorem WriteRecordWithin_rejects (b : Nat) (c : FastCGIConn) (typ : FastCGIRecordType)
    (p : List Byte) (h : b < p.length) :
    WriteRecordWithin b c typ (some p) = (some (Err.panicLarge (p.length : Nat)), c) := by
  have : ¬ (p.length ≤ b) := by omega
  simp [WriteRecordWithin, this]



theorem WriteStream_not_range (t : FastCGIRecordType) (b : Nat) (hb : b ≤ 65535)
    (r : Option Source) (hs : readerErrors r) (c : FastCGIConn) (e : Err)
    (h : (c.WriteStream t r b).1 = some e) : e.isRangePanic = false := by
  rcases WriteStream_err t b hb r hs c with h1 | h1 | ⟨k, h1⟩ | ⟨n, _, _, h1⟩
  · rw [h1] at h; cases h
  · rw [h1] at h; cases h; rfl
  · rw [h1] at h; cases h; rfl
  · rw [h1] at h; cases h; rfl

theorem DoPrologue_not_range (c : FastCGIConn) (params : Option Source)
    (hs : readerErrors params) (e : Err) (h : (DoPrologue c params).1 = some e) :
    e.isRangePanic = false := by
  unfold DoPrologue at h
  have a := WriteRecord_frame c RecBeginRequest
    (some [0, FcgiRoleResponder, FcgiFlagKeepConn, 0, 0, 0, 0, 0]) (by simp)
  rcases hr : c.WriteRecord RecBeginRequest
    (some [0, FcgiRoleResponder, FcgiFlagKeepConn, 0, 0, 0, 0, 0]) with ⟨e1, c1⟩
  rw [hr] at a h
  cases e1 with
  | some err =>
    dsimp only at h a
    rcases a.1 with h1 | h1
    · cases h1
    · rw [h1] at h; cases h; rfl
  | none =>
    dsimp only at h
    have b := WriteStream_not_range RecParams 2048 (by omega) params hs c1 e
    rcases hr2 : c1.WriteStream RecParams params 2048 with ⟨e2, c2, s2⟩
    rw [hr2] at h b
    exact b h

theorem ReadFull_err (c : FastCGIConn) (n : Nat) (e : Err) (h : (c.ReadFull n).2.1 = some e) :
    e.isPanic = false := by
  unfold FastCGIConn.ReadFull at h
  by_cases h0 : n = 0
  · rw [if_pos h0] at h; cases h
  · rw [if_neg h0] at h
    by_cases h1 : n ≤ c.c.input.length
    · rw [if_pos h1] at h; cases h
    · rw [if_neg h1] at h
      by_cases h2 : c.c.input = []
      · rw [if_pos h2] at h; cases h; rfl
      · rw [if_neg h2] at h; cases h; rfl

theorem ReadRecord_err (c : FastCGIConn) (e : Err) (h : c.ReadRecord.1 = Except.error e) :
    e.isPanic = false := by
  unfold FastCGIConn.ReadRecord at h
  have a1 := ReadFull_err c 8
  rcases hr : c.ReadFull 8 with ⟨hdr, e8, c1⟩
  rw [hr] at h a1
  cases e8 with
  | some err =>
    dsimp only at h
    cases h
    exact a1 _ rfl
  | none =>
    dsimp only at h
    by_cases hv : hdr.getD 0 0 ≠ 1
    · rw [if_pos hv] at h
      cases h
      rfl
    · rw [if_neg hv] at h
      have a2 := ReadFull_err c1 ((hdr.getD 4 0 <<< 8) + hdr.getD 5 0)
      rcases hr2 : c1.ReadFull ((hdr.getD 4 0 <<< 8) + hdr.getD 5 0) with ⟨pl, e2, c2⟩
      rw [hr2] at h a2
      cases e2 with
      | some err =>
        dsimp only at h
        cases h
        exact a2 _ rfl
      | none =>
        dsimp only [FastCGIConn.Discard] at h
        have a3 := ReadFull_err c2 (hdr.getD 6 0)
        rcases hr3 : c2.ReadFull (hdr.getD 6 0) with ⟨pd, e3, c3⟩
        rw [hr3] at h a3
        cases e3 with
        | some err =>
          dsimp only at h
          cases h
          exact a3 _ rfl
        | none =>
          dsimp only at h
          cases h

/-- The error the read loop of `Do` returns is nothing, the outcome of the body writer,
or an error that is no panic. -/
theorem DoLoop_err (sw : Option Err) :
    ∀ (f : Nat) (c : FastCGIConn) (so se : List Byte),
      (DoLoop sw f c so se).err = none ∨ (DoLoop sw f c so se).err = sw ∨
      ∃ e, (DoLoop sw f c so se).err = some e ∧ e.isPanic = false := by
  intro f
  induction f with
  | zero => intro c so se; exact Or.inl rfl
  | succ f ih =>
    intro c so se
    rw [DoLoop]
    have a := ReadRecord_err c
    rcases hr : c.ReadRecord with ⟨res, c1⟩
    rw [hr] at a
    cases res with
    | error err => exact Or.inr (Or.inr ⟨err, rfl, a err rfl⟩)
    | ok rec =>
      dsimp only
      split
      · exact ih c1 _ _
      · split
        · exact ih c1 _ _
        · split
          · exact Or.inr (Or.inl rfl)
          · exact Or.inr (Or.inr ⟨Err.recordType rec.Typ, rfl, rfl⟩)

theorem isRangePanic_of_not_panic (e : Err) (h : e.isPanic = false) :
    e.isRangePanic = false := by
  cases e <;> simp_all [Err.isPanic, Err.isRangePanic]

theorem Do_not_range (c : FastCGIConn) (stdin params : Option Source)
    (hs : readerErrors stdin) (hp : readerErrors params) (e : Err)
    (h : (c.Do stdin params).err = some e) : e.isRangePanic = false := by
  cases hpro : (DoPrologue c params).1 with
  | some e1 =>
    have hd := (Do_prologue_failed c stdin params e1 hpro).2.1
    rw [hd] at h
    cases h
    exact DoPrologue_not_range c params hp _ hpro
  | none =>
    have hbw : ∀ e2, (DoBodyWriter c stdin params).1 = some e2 → e2.isRangePanic = false := by
      intro e2 h2
      unfold DoBodyWriter at h2
      have b := WriteStream_not_range RecStdin 2048 (by omega) stdin hs (DoPrologue c params).2 e2
      rcases hr : (DoPrologue c params).2.WriteStream RecStdin stdin 2048 with ⟨e3, c3, s3⟩
      rw [hr] at h2 b
      exact b h2
    by_cases hnp : ((DoBodyWriter c stdin params).1.map Err.isPanic).getD false = false
    · rw [Do_reads c stdin params hpro hnp] at h
      rcases DoLoop_err (DoBodyWriter c stdin params).1 (c.c.input.length + 1)
        (DoBodyWriter c stdin params).2 [] [] with h1 | h1 | ⟨e2, h1, h2⟩
      · rw [h1] at h; cases h
      · rw [h1] at h; exact hbw e h
      · rw [h1] at h; cases h; exact isRangePanic_of_not_panic e h2
    · have hd : (c.Do stdin params).err = (DoBodyWriter c stdin params).1 := by
        unfold DoBodyWriter at hnp ⊢
        unfold DoPrologue at hpro hnp ⊢
        unfold FastCGIConn.Do
        rcases hr : c.WriteRecord RecBeginRequest
          (some [0, FcgiRoleResponder, FcgiFlagKeepConn, 0, 0, 0, 0, 0]) with ⟨e1, c1⟩
        rw [hr] at hpro hnp
        cases e1 with
        | some err => cases hpro
        | none =>
          dsimp only at hpro hnp ⊢
          rcases hr2 : c1.WriteStream RecParams params 2048 with ⟨e2, c2, s2⟩
          rw [hr2] at hpro hnp
          dsimp only at hpro hnp ⊢
          subst hpro
          dsimp only
          rcases hr3 : c2.WriteStream RecStdin stdin 2048 with ⟨e3, c3, s3⟩
          rw [hr3] at hnp
          dsimp only at hnp ⊢
          have ht : (Option.map Err.isPanic e3).getD false = true := by
            cases hq : (Option.map Err.isPanic e3).getD false with
            | true => rfl
            | false => exact absurd hq hnp
          rw [ht]
          rfl
      rw [hd] at h
      exact hbw e h



/-- C19. No range panic during a request: for every parameter reader, body reader,
connection and peer input, `Do` behaves exactly as it would if every call of
`WriteRecord`, its own and those made through `WriteStream` with buffer size 2048, were
guarded against payloads of more than 2048 bytes, so no call has a longer payload; a
`WriteRecord` call with a payload of at most 2048 bytes returns nothing or a failure of
the writer, never a panic of `WriteUint16`; and when the readers report only `io.EOF` or
errors of their own, no error that `Do` returns is the negative-value or the
too-large-value panic of `WriteUint16`. -/
theorem C19_no_range_panic (c : FastCGIConn) (stdin params : Option Source) :
    c.Do stdin params = DoWith (WriteRecordWithin 2048) c stdin params ∧
    (∀ (c1 : FastCGIConn) (t : FastCGIRecordType) (p : List Byte), 2048 < p.length →
      WriteRecordWithin 2048 c1 t (some p) = (some (Err.panicLarge (p.length : Nat)), c1)) ∧
    (∀ (c1 : FastCGIConn) (t : FastCGIRecordType) (data : Option (List Byte)),
      (data.getD []).length ≤ 2048 →
      (c1.WriteRecord t data).1 = none ∨ (c1.WriteRecord t data).1 = some Err.writeFault) ∧
    (readerErrors stdin → readerErrors params →
      ∀ e, (c.Do stdin params).err = some e → e.isRangePanic = false) := by
  refine ⟨(DoWith_within c stdin params).symm, ?_, ?_, ?_⟩
  · intro c1 t p h
    exact WriteRecordWithin_rejects 2048 c1 t p h
  · intro c1 t data h
    exact (WriteRecord_frame c1 t data (by omega)).1
  · intro hs hp e h
    exact Do_not_range c stdin params hs hp e h

theorem C19_no_range_panic_witness :
    readerErrors (some [⟨[1, 2], none⟩, ⟨[], some (Err.sourceFault 3)⟩]) ∧
    readerErrors none ∧
    (idleConn.Do (some [⟨[1, 2], none⟩, ⟨[], some (Err.sourceFault 3)⟩]) none).err
      = some Err.EOF ∧
    Err.EOF.isRangePanic = false :=
  have hs : readerErrors (some [⟨[1, 2], none⟩, ⟨[], some (Err.sourceFault 3)⟩]) := by
    intro r hr
    simp only [List.mem_cons, List.mem_singleton, List.not_mem_nil, or_false] at hr
    rcases hr with rfl | rfl
    · exact Or.inl rfl
    · exact Or.inr (Or.inr ⟨3, rfl⟩)
  ⟨hs, trivial, by decide,
    (C19_no_range_panic idleConn (some [⟨[1, 2], none⟩, ⟨[], some (Err.sourceFault 3)⟩])
      none).2.2.2 hs trivial Err.EOF (by decide)⟩

/-! ## The parameter stream can be read back -/

theorem specDecode_lenBytes (n : Nat) (hn : n < 2 ^ 31) (rest : List Byte) :
    specDecode14Len (lenBytes n ++ rest) = some (n, rest) := by
  by_cases hs : n ≤ 127
  · have : n < 128 := by omega
    simp [lenBytes, Write14Len_small [] n hs, specDecode14Len, this]
  · have hx : n / 2 ^ 24 % 256 < 128 := by omega
    rw [lenBytes, Write14Len_large [] n (by omega), or_0x80 _ hx]
    have hb : ¬ (n / 2 ^ 24 % 256 + 128 < 128) := by omega
    have hand : (n / 2 ^ 24 % 256 + 128) &&& 0x7F = n / 2 ^ 24 := by
      have h7 : (0x7F : Nat) = 2 ^ 7 - 1 := by norm_num
      rw [h7, Nat.and_pow_two_sub_one_eq_mod]
      omega
    simp only [List.nil_append, List.cons_append, specDecode14Len, hb, if_false, hand,
      Nat.shiftLeft_eq]
    simp only [Option.some.injEq, Prod.mk.injEq, and_true]
    omega

theorem NewParamStream_cons (p : FastCGIParam) (ps : List FastCGIParam) :
    NewParamStream (p :: ps)
      = lenBytes p.Name.length ++ (lenBytes p.Value.length ++ (p.Name ++ (p.Value
          ++ NewParamStream ps))) := by
  have h1 := NewParamStream_fold (p :: ps) []
  have h2 := NewParamStream_fold ps []
  simp only [NewParamStream] at h1 h2 ⊢
  rw [h1, h2]
  simp

theorem param_bytes_inj (p q : FastCGIParam) (s1 s2 : List Byte)
    (hp : p.Name.length < 2 ^ 31 ∧ p.Value.length < 2 ^ 31)
    (hq : q.Name.length < 2 ^ 31 ∧ q.Value.length < 2 ^ 31)
    (h : lenBytes p.Name.length ++ (lenBytes p.Value.length ++ (p.Name ++ (p.Value ++ s1)))
      = lenBytes q.Name.length ++ (lenBytes q.Value.length ++ (q.Name ++ (q.Value ++ s2)))) :
    p = q ∧ s1 = s2 := by
  have d1 := congrArg specDecode14Len h
  rw [specDecode_lenBytes _ hp.1, specDecode_lenBytes _ hq.1] at d1
  simp only [Option.some.injEq, Prod.mk.injEq] at d1
  obtain ⟨hn, h1⟩ := d1
  have d2 := congrArg specDecode14Len h1
  rw [specDecode_lenBytes _ hp.2, specDecode_lenBytes _ hq.2] at d2
  simp only [Option.some.injEq, Prod.mk.injEq] at d2
  obtain ⟨hv, h2⟩ := d2
  obtain ⟨e1, h3⟩ := List.append_inj h2 hn
  obtain ⟨e2, e3⟩ := List.append_inj h3 hv
  refine ⟨?_, e3⟩
  cases p
  cases q
  simp only at e1 e2
  rw [e1, e2]

/-- C20. The parameter stream is unambiguous: two parameter lists in which every name
and every value is shorter than `2^31` bytes and for which `NewParamStream` produces the
same byte sequence are equal. -/
theorem C20_param_stream_injective (a b : List FastCGIParam)
    (ha : ∀ p ∈ a, p.Name.length < 2 ^ 31 ∧ p.Value.length < 2 ^ 31)
    (hb : ∀ p ∈ b, p.Name.length < 2 ^ 31 ∧ p.Value.length < 2 ^ 31)
    (h : NewParamStream a = NewParamStream b) : a = b := by
  induction a generalizing b with
  | nil =>
    cases b with
    | nil => rfl
    | cons q qs =>
      have hq := hb q (List.mem_cons_self _ _)
      rw [NewParamStream_cons] at h
      have d := congrArg specDecode14Len h
      rw [specDecode_lenBytes _ hq.1] at d
      simp [NewParamStream, specDecode14Len] at d
  | cons p ps ih =>
    have hp := ha p (List.mem_cons_self _ _)
    cases b with
    | nil =>
      rw [NewParamStream_cons] at h
      have d := congrArg specDecode14Len h
      rw [specDecode_lenBytes _ hp.1] at d
      simp [NewParamStream, specDecode14Len] at d
    | cons q qs =>
      have hq := hb q (List.mem_cons_self _ _)
      rw [NewParamStream_cons, NewParamStream_cons] at h
      obtain ⟨e1, e2⟩ := param_bytes_inj p q _ _ hp hq h
      have := ih qs (fun r hr => ha r (List.mem_cons_of_mem _ hr))
        (fun r hr => hb r (List.mem_cons_of_mem _ hr)) e2
      rw [e1, this]

theorem C20_param_stream_injective_witness :
    (∀ p ∈ [requestMethodGet], p.Name.length < 2 ^ 31 ∧ p.Value.length < 2 ^ 31) ∧
    NewParamStream [requestMethodGet] = NewParamStream [requestMethodGet] ∧
    [requestMethodGet] = [requestMethodGet] :=
  have hl : ∀ p ∈ [requestMethodGet], p.Name.length < 2 ^ 31 ∧ p.Value.length < 2 ^ 31 := by
    intro p hp
    rw [List.mem_singleton.mp hp]
    decide
  ⟨hl, rfl, C20_param_stream_injective [requestMethodGet] [requestMethodGet] hl hl rfl⟩


end Fcgirt
